import Mathlib

/-!
Verification of the spreadsheet-driven fitting engine of py-backpack
(`backpack/datafit.py`, helper `index` from `backpack/arraymanip.py`).

The engine is embedded shallowly:
* A sheet cell is a `Cell` (string, number, or one of numpy's infinities,
  which only occur after the min/max default substitution).
* The nested mapping `self.parameters` built by `get_parameters`
  (submodel -> arg -> column -> list of cell values, in sheet row order)
  is the input type `Params`; insertion-ordered Python dicts become
  association lists.  The `#` column holds the 0-based data-row numbers
  that `get_parameters` assigns.
* The Submodel Registry (module `model_functions`, inspected through
  `inspect.signature`) is an external collaborator of the engine; it is
  a mapping from function name to its declared parameter names (first
  one is the independent variable).
* The Tabular Store is an external collaborator; the engine only issues
  writes to it (`set_cell_value`, plus the id-column clear done with
  `set_col_values`).  Writes are collected in order in a list; a raised
  exception keeps the writes performed so far, as in Python, so the
  error constructor of the result type carries the write log.
* The un-guarded `while` loop of the link resolution is given fuel; the
  result `hang` means the fuel ran out, i.e. the loop was still running.
-/

set_option maxRecDepth 4000

namespace Backpack

/-- A sheet cell value: a string, a number, or one of numpy's infinities
(the infinities only appear through the min/max default substitution at
the end of `update_model`).  The empty cell is the empty string, as read
from the sheet. -/
inductive Cell where
  | s (v : String)
  | n (v : Int)
  | negInf
  | posInf
deriving DecidableEq

/-- Python `f'{v}'` / `str(v)` of a cell value. -/
def Cell.render : Cell → String
  | .s v => v
  | .n v => toString v
  | .negInf => "-inf"
  | .posInf => "inf"

/-- One `(submodel, arg)` entry of `self.parameters`: one value per
occurrence (use-case) of the pair, per column.  Field `row` is the `#`
column (the 0-based data-row number `get_parameters` writes into the
first sheet column, so the sheet row is `row + 2`). -/
structure Entry where
  use : List Cell
  vary : List Cell
  guess : List Cell
  min : List Cell
  max : List Cell
  fitted : List Cell
  error : List Cell
  id : List Cell
  row : List Nat
deriving DecidableEq

/-- `self.parameters`: submodel -> arg -> entry, in insertion order. -/
abbrev Params := List (String × List (String × Entry))

/-- The Submodel Registry: function name -> declared parameter names
(the first is the independent variable `x`). -/
abbrev Registry := List (String × List String)

/-- Errors raised by the engine, mirroring the Python exceptions:
`MissingArgument`, the two `ValueError`s raised explicitly, and the
uncaught `KeyError` / `ValueError` / `NameError` / `AttributeError`
that the dictionary and list accesses can raise. -/
inductive Err where
  | missingArgument (submodel arg : String)
  | cannotFindLink (submodel2link arg2link : String)
  | missingGuess (ids : List String)
  | keyError (key : String)
  | valueErrorIndex (arg : String)
  | valueErrorIdList (id : String)
  | nameError (name : String)
  | attributeError
deriving DecidableEq

/-- The sheet columns the engine writes to. -/
inductive Col where
  | idC
  | guessC
  | fittedC
  | errorC
deriving DecidableEq

/-- One write to the Tabular Store.  `clearIds` is the
`set_col_values(data=[''] * ..., row_start=2, col=id_col)` call that
blanks the id column of every data row; `cell` is `set_cell_value`. -/
inductive Write where
  | clearIds
  | cell (row : Nat) (col : Col) (v : Cell)
deriving DecidableEq

/-- Result of a stateful computation: success, a raised exception (which
keeps the store writes performed so far, since the store is external and
its mutations survive the exception), or fuel exhaustion of the
un-guarded link-resolution `while` loop. -/
inductive Res (α : Type) where
  | ok (a : α)
  | err (e : Err) (writes : List Write)
  | hang
deriving DecidableEq

def Res.bind {α β : Type} : Res α → (α → Res β) → Res β
  | .ok a, f => f a
  | .err e w, _ => .err e w
  | .hang, _ => .hang

instance : Monad Res where
  pure := Res.ok
  bind := Res.bind

def Res.proj {α β : Type} (f : α → β) : Res α → Option β
  | .ok a => some (f a)
  | _ => none

def Res.errOf {α : Type} : Res α → Option Err
  | .err e _ => some e
  | _ => none

/-! ### Python string helpers

`str.split(sep)`, `str.strip()`, `s[:-n]` as used by the source. -/

def splitAux (sep : Char) : List Char → List Char → List String
  | [], acc => [String.mk acc.reverse]
  | c :: rest, acc =>
    if c = sep then String.mk acc.reverse :: splitAux sep rest []
    else splitAux sep rest (c :: acc)

/-- Python `s.split(sep)` for a one-character separator. -/
def pySplit (s : String) (sep : Char) : List String := splitAux sep s.data []

/-- Python `s.strip()` (the source only ever strips spaces). -/
def pyStrip (s : String) : String :=
  String.mk (((s.data.dropWhile (· = ' ')).reverse.dropWhile (· = ' ')).reverse)

/-- Python `s[:-k]` (for `k ≤ len(s)`; on shorter strings both yield `""`). -/
def pyDropRight (s : String) (k : Nat) : String :=
  String.mk (s.data.take (s.data.length - k))

/-! ### Lookups on the parameter mapping -/

/-- `self.parameters[s][a]`, as an `Option`. -/
def lookup2 (ps : Params) (s a : String) : Option Entry :=
  match ps.lookup s with
  | none => none
  | some args => args.lookup a

/-- Python `s in self.parameters`. -/
def hasSub (ps : Params) (s : String) : Bool := (ps.lookup s).isSome

/-- Python `a in self.parameters[s]` (for `s` a present key). -/
def hasArg (ps : Params) (s a : String) : Bool :=
  match ps.lookup s with
  | none => false
  | some args => (args.lookup a).isSome

/-- Update the entry of `(s, a)` in place. -/
def updEntry (ps : Params) (s a : String) (f : Entry → Entry) : Params :=
  ps.map fun q =>
    if q.1 = s then
      (q.1, q.2.map fun w => if w.1 = a then (w.1, f w.2) else w)
    else q

/-- `['use'].index('y')`: the first use-case with `use = 'y'`. -/
def firstY (l : List Cell) : Option Nat := l.findIdx? (fun c => c = Cell.s "y")

/-- Line 117: a submodel is used iff `'y'` occurs in the flattened list
of all of its arguments' `use` values. -/
def isActive (ps : Params) (submodel : String) : Bool :=
  match ps.lookup submodel with
  | none => false
  | some args => args.any fun q => q.2.use.any (fun c => c = Cell.s "y")

/-! ### Link resolution (lines 148–165) -/

/-- Lines 149–150: `vary.split(',')[0]` and `vary.split(',')[-1]`.
A non-string cell has no `.split`, hence Python's `AttributeError`. -/
def splitVary : Cell → Except Err (String × String)
  | .s str =>
    let parts := pySplit str ','
    .ok (parts.headD "", (parts.getLast?).getD "")
  | _ => .error .attributeError

/-- Lines 151–155 (repeated verbatim at 161–165): the guarded lookup of
the link target.  Note the source checks `arg2link in
self.parameters[submodel]` — the *current* submodel, not the target
one — before indexing `self.parameters[submodel2link][arg2link]`, so
the un-guarded dictionary access can raise `KeyError` and the
un-guarded `.index('y')` can raise a bare `ValueError`. -/
def lookupLinked (ps : Params) (submodel s2 a2 : String) :
    Except Err (Nat × Cell) :=
  if hasSub ps s2 && hasArg ps submodel a2 then
    match lookup2 ps s2 a2 with
    | none => .error (.keyError a2)
    | some e2 =>
      match firstY e2.use with
      | none => .error (.valueErrorIndex a2)
      | some to_use_linked =>
        .ok (to_use_linked, e2.vary.getD to_use_linked (Cell.s ""))
  else .error (.cannotFindLink s2 a2)

/-- Lines 156–165: the `while vary2 != 'y' and vary2 != 'n'` loop,
given fuel.  `hang` models the loop still running when fuel runs out
(the source has no cycle guard). -/
def linkLoop (ps : Params) (submodel : String) (ws : List Write) :
    Nat → String → String → Nat → Cell → Res (String × String × Nat × Cell)
  | fuel, s2, a2, tul, vary2 =>
    if vary2 = Cell.s "y" ∨ vary2 = Cell.s "n" then .ok (s2, a2, tul, vary2)
    else
      match fuel with
      | 0 => .hang
      | fuel + 1 =>
        match splitVary vary2 with
        | .error e => .err e ws
        | .ok (s2b, a2b) =>
          match lookupLinked ps submodel s2b a2b with
          | .error e => .err e ws
          | .ok (tulb, vary2b) => linkLoop ps submodel ws fuel s2b a2b tulb vary2b

/-! ### The model-assembly state -/

/-- The mutable state of `update_model`'s main loop: the accumulated
strings, free-parameter vectors, id counters `p` and `x`, the
`linked_parameters` dictionary, the store writes issued so far, and
`self.parameters` (whose `id` / `fitted` / `error` slots the loop
mutates).  `frags` is a ghost field: per active submodel, the list of
argument fragments appended to `model_string` (one per expected
argument, in order); it records positions in the composite expression
and never influences control flow. -/
structure St where
  var_string : String
  model_string : String
  p_min : List Cell
  p_max : List Cell
  p_guess : List Cell
  p_fitted : List Cell
  p_error : List Cell
  p : Nat
  x : Nat
  linked_parameters : List (String × Nat)
  writes : List Write
  params : Params
  frags : List (String × List String)
deriving DecidableEq

/-- Lines 134–226: resolve one expected argument of an active submodel.
Returns the new state and the fragment appended to `model_string` for
this argument. -/
def processArg (fuel : Nat) (submodel arg : String) (st : St) :
    Res (St × String) :=
  match lookup2 st.params submodel arg with
  | none => .err (.keyError arg) st.writes
  | some entry =>
    match firstY entry.use with
    | none => .err (.missingArgument submodel arg) st.writes
    | some to_use =>
      let vary := entry.vary.getD to_use (Cell.s "")
      let hashtag := entry.row.getD to_use 0
      if vary ≠ Cell.s "y" ∧ vary ≠ Cell.s "n" then
        -- linked parameter (lines 148–187)
        match splitVary vary with
        | .error e => .err e st.writes
        | .ok (s2, a2) =>
          match lookupLinked st.params submodel s2 a2 with
          | .error e => .err e st.writes
          | .ok (tul, vary2) =>
            match linkLoop st.params submodel st.writes fuel s2 a2 tul vary2 with
            | .hang => .hang
            | .err e w => .err e w
            | .ok (s2f, a2f, tulf, vary2f) =>
              if vary2f = Cell.s "n" then
                -- lines 167–173: substitute the target's fixed guess;
                -- note `self.parameters` is not updated here.
                match lookup2 st.params s2f a2f with
                | none => .err (.keyError a2f) st.writes
                | some e2 =>
                  let v := e2.guess.getD tulf (Cell.s "")
                  let frag := Cell.render v ++ ", "
                  .ok ({ st with
                          model_string := st.model_string ++ frag,
                          writes := st.writes ++
                            [.cell (hashtag + 2) .idC (Cell.s "-"),
                             .cell (hashtag + 2) .guessC v,
                             .cell (hashtag + 2) .fittedC v,
                             .cell (hashtag + 2) .errorC (Cell.n 0)] }, frag)
              else
                -- lines 174–187: shared id keyed by the final target
                let key := s2f ++ "," ++ a2f
                match st.linked_parameters.lookup key with
                | some x_temp =>
                  let idv := "x" ++ toString x_temp
                  let frag := idv ++ ", "
                  .ok ({ st with
                          model_string := st.model_string ++ frag,
                          writes := st.writes ++
                            [.cell (hashtag + 2) .idC (Cell.s idv)],
                          params := updEntry st.params submodel arg fun e =>
                            { e with id := e.id.set to_use (Cell.s idv) } }, frag)
                | none =>
                  let idv := "x" ++ toString st.x
                  let frag := idv ++ ", "
                  .ok ({ st with
                          model_string := st.model_string ++ frag,
                          linked_parameters :=
                            st.linked_parameters ++ [(key, st.x)],
                          writes := st.writes ++
                            [.cell (hashtag + 2) .idC (Cell.s idv)],
                          params := updEntry st.params submodel arg fun e =>
                            { e with id := e.id.set to_use (Cell.s idv) },
                          x := st.x + 1 }, frag)
      else if vary = Cell.s "n" then
        -- fixed parameter (lines 190–199)
        let v := entry.guess.getD to_use (Cell.s "")
        let frag := Cell.render v ++ ", "
        .ok ({ st with
                model_string := st.model_string ++ frag,
                writes := st.writes ++
                  [.cell (hashtag + 2) .idC (Cell.s "-"),
                   .cell (hashtag + 2) .fittedC v,
                   .cell (hashtag + 2) .errorC (Cell.n 0)],
                params := updEntry st.params submodel arg fun e =>
                  { e with
                      id := e.id.set to_use (Cell.s "-"),
                      fitted := e.fitted.set to_use v,
                      error := e.error.set to_use (Cell.n 0) } }, frag)
      else
        -- variable parameter (lines 202–226); the
        -- `except UnboundLocalError` handler there is dead code
        let st1 := { st with
          p_min := st.p_min ++ [entry.min.getD to_use (Cell.s "")],
          p_max := st.p_max ++ [entry.max.getD to_use (Cell.s "")],
          p_guess := st.p_guess ++ [entry.guess.getD to_use (Cell.s "")],
          p_fitted := st.p_fitted ++ [entry.fitted.getD to_use (Cell.s "")],
          p_error := st.p_error ++ [entry.error.getD to_use (Cell.s "")] }
        let key := submodel ++ "," ++ arg
        match st1.linked_parameters.lookup key with
        | some x_temp =>
          let idv := "x" ++ toString x_temp
          let frag := idv ++ ", "
          .ok ({ st1 with
                  var_string := st1.var_string ++ frag,
                  model_string := st1.model_string ++ frag,
                  writes := st1.writes ++
                    [.cell (hashtag + 2) .idC (Cell.s idv)],
                  params := updEntry st1.params submodel arg fun e =>
                    { e with id := e.id.set to_use (Cell.s idv) } }, frag)
        | none =>
          let idv := "p" ++ toString st1.p
          let frag := idv ++ ", "
          .ok ({ st1 with
                  var_string := st1.var_string ++ frag,
                  model_string := st1.model_string ++ frag,
                  writes := st1.writes ++
                    [.cell (hashtag + 2) .idC (Cell.s idv)],
                  params := updEntry st1.params submodel arg fun e =>
                    { e with id := e.id.set to_use (Cell.s idv) },
                  p := st1.p + 1 }, frag)

/-- The `for arg in args_expected[1:]` loop; collects the fragments. -/
def processArgs (fuel : Nat) (submodel : String) :
    List String → St → Res (St × List String)
  | [], st => .ok (st, [])
  | a :: rest, st =>
    match processArg fuel submodel a st with
    | .err e w => .err e w
    | .hang => .hang
    | .ok (st1, f) =>
      match processArgs fuel submodel rest st1 with
      | .err e w => .err e w
      | .hang => .hang
      | .ok (st2, fs) => .ok (st2, f :: fs)

/-- Lines 116–228: process one submodel of the `for submodel in
self.parameters` loop. -/
def processSubmodel (fuel : Nat) (reg : Registry) (submodel : String)
    (st : St) : Res St :=
  if isActive st.params submodel then
    let submodel_name := (pySplit submodel '#').headD submodel
    match reg.lookup submodel_name with
    | none => .err (.nameError submodel_name) st.writes
    | some args_expected =>
      let st1 := { st with
        model_string := st.model_string ++ submodel_name ++ "(x, " }
      match processArgs fuel submodel args_expected.tail st1 with
      | .err e w => .err e w
      | .hang => .hang
      | .ok (st2, fs) =>
        .ok { st2 with
                model_string := st2.model_string ++ ") + ",
                frags := st2.frags ++ [(submodel, fs)] }
  else .ok st

/-- The `for submodel in self.parameters` loop over the dict keys. -/
def processList (fuel : Nat) (reg : Registry) :
    List String → St → Res St
  | [], st => .ok st
  | s :: rest, st =>
    match processSubmodel fuel reg s st with
    | .err e w => .err e w
    | .hang => .hang
    | .ok st1 => processList fuel reg rest st1

/-! ### update_submodels (lines 254–306)

Builds, per active submodel, the `guess_string` and `fit_string`
preview expressions (the `eval`'d lambdas themselves are runtime code
generation and are not modelled).  The `__main__` fallback of the
registry lookup resolves through the same registry here. -/

/-- Lines 283–300: one argument of `update_submodels`' inner loop.
Returns the fragments appended to the two strings.  The Python
`self.id_list.index(id)` raises `ValueError` when the recorded id is
absent from `id_list`. -/
def sub_arg (ps : Params) (id_list : List String)
    (p_guess p_fitted : List Cell) (submodel arg : String) :
    Except Err (String × String) :=
  match lookup2 ps submodel arg with
  | none => .error (.keyError arg)
  | some e =>
    match firstY e.use with
    | none => .error (.missingArgument submodel arg)
    | some to_use =>
      let idc := e.id.getD to_use (Cell.s "")
      if idc ≠ Cell.s "-" then
        match id_list.findIdx? (fun t => Cell.s t = idc) with
        | none => .error (.valueErrorIdList (Cell.render idc))
        | some i =>
          .ok (Cell.render (p_guess.getD i (Cell.s "")) ++ ", ",
               Cell.render (p_fitted.getD i (Cell.s "")) ++ ", ")
      else
        .ok (Cell.render (e.guess.getD to_use (Cell.s "")) ++ ", ",
             Cell.render (e.fitted.getD to_use (Cell.s "")) ++ ", ")

def sub_args (ps : Params) (id_list : List String)
    (p_guess p_fitted : List Cell) (submodel : String) :
    List String → String × String → Except Err (String × String)
  | [], acc => .ok acc
  | a :: rest, acc =>
    match sub_arg ps id_list p_guess p_fitted submodel a with
    | .error e => .error e
    | .ok (g, f) =>
      sub_args ps id_list p_guess p_fitted submodel rest
        (acc.1 ++ g, acc.2 ++ f)

/-- Lines 262–303: the two preview strings of one active submodel. -/
def sub_one (reg : Registry) (ps : Params) (id_list : List String)
    (p_guess p_fitted : List Cell) (submodel : String) :
    Except Err (String × String) :=
  let submodel_name := (pySplit submodel '#').headD submodel
  match reg.lookup submodel_name with
  | none => .error (.nameError submodel_name)
  | some args_expected =>
    match sub_args ps id_list p_guess p_fitted submodel args_expected.tail
        (submodel_name ++ "(x, ", submodel_name ++ "(x, ") with
    | .error e => .error e
    | .ok (g, f) => .ok (pyDropRight g 2 ++ ")", pyDropRight f 2 ++ ")")

def sub_list (reg : Registry) (ps : Params) (id_list : List String)
    (p_guess p_fitted : List Cell) :
    List String → Except Err (List (String × String × String))
  | [] => .ok []
  | s :: rest =>
    if isActive ps s then
      match sub_one reg ps id_list p_guess p_fitted s with
      | .error e => .error e
      | .ok gf =>
        match sub_list reg ps id_list p_guess p_fitted rest with
        | .error e => .error e
        | .ok l => .ok ((s, gf) :: l)
    else sub_list reg ps id_list p_guess p_fitted rest

/-- `update_submodels` (lines 254–306), reading the possibly-mutated
`self.parameters` together with `self.id_list`, `self.p_guess`,
`self.p_fitted`. -/
def update_submodels (reg : Registry) (ps : Params) (id_list : List String)
    (p_guess p_fitted : List Cell) :
    Except Err (List (String × String × String)) :=
  sub_list reg ps id_list p_guess p_fitted (ps.map Prod.fst)

/-! ### Finish of update_model (lines 230–251) -/

/-- The outputs of `update_model`: the attributes it stores on the sheet
object, plus the write log, the mutated parameter mapping, and the ghost
fragment record. -/
structure Result where
  var_string : String
  model_string : String
  p_min : List Cell
  p_max : List Cell
  p_guess : List Cell
  p_fitted : List Cell
  p_error : List Cell
  id_list : List String
  linked_parameters : List (String × Nat)
  writes : List Write
  params : Params
  frags : List (String × List String)
  submodel : List (String × String × String)
deriving DecidableEq

/-- Line 231: `id_list` from `var_string` (split on `,`, strip). -/
def mk_id_list (var_string : String) : List String :=
  (pySplit (pyDropRight var_string 2) ',').map pyStrip

/-- Lines 237–238: the ids whose guess cell is empty. -/
def guess_missing (id_list : List String) (p_guess : List Cell) : List String :=
  ((p_guess.enum.filter fun q => q.2 = Cell.s "").map
    fun q => id_list.getD q.1 "")

/-- Lines 230–251: assemble `id_list` and `model_string`, validate the
guesses, substitute the min/max/fitted/error defaults, and run
`update_submodels`. -/
def finalize (reg : Registry) (st : St) : Res Result :=
  let id_list := mk_id_list st.var_string
  let model_string :=
    "lambda x, " ++ pyDropRight st.var_string 2 ++ ": " ++
      pyDropRight st.model_string 3
  if st.p_guess.contains (Cell.s "") then
    .err (.missingGuess (guess_missing id_list st.p_guess)) st.writes
  else
    let p_min := if st.p_min.contains (Cell.s "") then
      st.p_min.map (fun c => if c = Cell.s "" then Cell.negInf else c)
      else st.p_min
    let p_max := if st.p_max.contains (Cell.s "") then
      st.p_max.map (fun c => if c = Cell.s "" then Cell.posInf else c)
      else st.p_max
    let p_fitted := if st.p_fitted.contains (Cell.s "") then
      st.p_fitted.map (fun c => if c = Cell.s "" then Cell.n 0 else c)
      else st.p_fitted
    let p_error := if st.p_error.contains (Cell.s "") then
      st.p_error.map (fun c => if c = Cell.s "" then Cell.n 0 else c)
      else st.p_error
    match update_submodels reg st.params id_list st.p_guess p_fitted with
    | .error e => .err e st.writes
    | .ok subs =>
      .ok { var_string := st.var_string, model_string := model_string,
            p_min := p_min, p_max := p_max, p_guess := st.p_guess,
            p_fitted := p_fitted, p_error := p_error, id_list := id_list,
            linked_parameters := st.linked_parameters, writes := st.writes,
            params := st.params, frags := st.frags, submodel := subs }

/-- The initial state of `update_model`'s loop (lines 92–113); the
single initial write is the id-column clear of line 109. -/
def init_st (ps : Params) : St :=
  { var_string := "", model_string := "", p_min := [], p_max := [],
    p_guess := [], p_fitted := [], p_error := [], p := 0, x := 0,
    linked_parameters := [], writes := [.clearIds], params := ps,
    frags := [] }

/-- `update_model` (lines 89–251).  The construction of
`self.parameters` from the sheet (`get_parameters`) is taken as the
input `ps`; the `refresh()` module reload of line 90 has no effect on
the computation and is not modelled. -/
def update_model (fuel : Nat) (reg : Registry) (ps : Params) : Res Result :=
  match processList fuel reg (ps.map Prod.fst) (init_st ps) with
  | .err e w => .err e w
  | .hang => .hang
  | .ok st => finalize reg st

/-! ### The write-back loop of fit (lines 328–365)

`fit` itself calls `update_model`, hands the model to the external
bounded least-squares solver, and then writes the fitted values and
errors back.  The solver is an external collaborator; the write-back
loop takes its outputs (`p_fitted`, `p_error`) as inputs. -/

/-- Lines 347–365: write-back of one argument. -/
def fit_wb_arg (id_list : List String) (p_fitted p_error : List Cell)
    (submodel arg : String) :
    Params × List Write → Except Err (Params × List Write) :=
  fun q =>
    match lookup2 q.1 submodel arg with
    | none => .error (.keyError arg)
    | some e =>
      match firstY e.use with
      | none => .error (.missingArgument submodel arg)
      | some to_use =>
        let hashtag := e.row.getD to_use 0
        let idc := e.id.getD to_use (Cell.s "")
        if idc ≠ Cell.s "-" then
          match id_list.findIdx? (fun t => Cell.s t = idc) with
          | none => .error (.valueErrorIdList (Cell.render idc))
          | some i =>
            let v1 := p_fitted.getD i (Cell.s "")
            let v2 := p_error.getD i (Cell.s "")
            .ok (updEntry q.1 submodel arg fun e =>
                  { e with
                      fitted := e.fitted.set to_use v1,
                      error := e.error.set to_use v2 },
                q.2 ++ [.cell (hashtag + 2) .fittedC v1,
                        .cell (hashtag + 2) .errorC v2])
        else .ok q

def fit_wb_args (id_list : List String) (p_fitted p_error : List Cell)
    (submodel : String) :
    List String → Params × List Write → Except Err (Params × List Write)
  | [], q => .ok q
  | a :: rest, q =>
    match fit_wb_arg id_list p_fitted p_error submodel a q with
    | .error e => .error e
    | .ok q1 => fit_wb_args id_list p_fitted p_error submodel rest q1

/-- Lines 332–365: write-back of one submodel (active submodels only). -/
def fit_wb_sub (reg : Registry) (id_list : List String)
    (p_fitted p_error : List Cell) (submodel : String) :
    Params × List Write → Except Err (Params × List Write) :=
  fun q =>
    if isActive q.1 submodel then
      let submodel_name := (pySplit submodel '#').headD submodel
      match reg.lookup submodel_name with
      | none => .error (.nameError submodel_name)
      | some args_expected =>
        fit_wb_args id_list p_fitted p_error submodel args_expected.tail q
    else .ok q

def fit_wb_list (reg : Registry) (id_list : List String)
    (p_fitted p_error : List Cell) :
    List String → Params × List Write → Except Err (Params × List Write)
  | [], q => .ok q
  | s :: rest, q =>
    match fit_wb_sub reg id_list p_fitted p_error s q with
    | .error e => .error e
    | .ok q1 => fit_wb_list reg id_list p_fitted p_error rest q1

/-- The write-back loop of `fit` (lines 328–365): given the parameter
mapping left by `update_model`, its `id_list`, and the solver outputs,
produce the mutated mapping and the store writes. -/
def fit_writeback (reg : Registry) (ps : Params) (id_list : List String)
    (p_fitted p_error : List Cell) :
    Except Err (Params × List Write) :=
  fit_wb_list reg id_list p_fitted p_error (ps.map Prod.fst) (ps, [])

/-! ### The Tabular Store (external collaborator)

Modelled from the spec: the Tabular Store of §6 is a grid addressable
by row and column with `set_cell_value` / `set_col_values`; only the
columns the engine writes to are modelled.  Applying the write log to a
pre-call store state gives the post-call state; `clearIds` models
`set_col_values(data=[''] * ..., row_start=2, col=id_col)`, which
blanks the id cell of every data row (rows `≥ 2`). -/

def Store := Nat → Col → Cell

def applyWrite (store : Store) : Write → Store
  | .clearIds => fun r c =>
      if 2 ≤ r ∧ c = Col.idC then Cell.s "" else store r c
  | .cell row col v => fun r c =>
      if r = row ∧ c = col then v else store r c

def applyWrites (store : Store) (ws : List Write) : Store :=
  ws.foldl applyWrite store

/-! ### fake_sigma (lines 373–399) and arraymanip.index (lines 10–18) -/

/-- The minimum of a nonempty list (`[]` gives `0`). -/
def listMin : List Nat → Nat
  | [] => 0
  | [a] => a
  | a :: b :: r => min a (listMin (b :: r))

/-- First index of the minimum of a list (`np.argmin`; numpy returns the
first occurrence of the minimum; on `[]` numpy raises, here `0`). -/
def argmin : List Nat → Nat
  | [] => 0
  | [_] => 0
  | a :: b :: r => if a ≤ listMin (b :: r) then 0 else argmin (b :: r) + 1

/-- `arraymanip.index`: the closest index of a value in an array
(`np.argmin(np.abs(np.array(array) - value))`). -/
def index (array : List Int) (value : Int) : Nat :=
  argmin (array.map fun a => (a - value).natAbs)

/-- Numpy slice assignment `p[init:final] = s` on a 1-d array, positions
counted from `k`. -/
def sliceAssignFrom (k init final : Nat) (s : Int) : List Int → List Int
  | [] => []
  | v :: rest =>
    (if init ≤ k ∧ k < final then s else v) ::
      sliceAssignFrom (k + 1) init final s rest

/-- Numpy slice assignment `p[init:final] = s` on a 1-d array. -/
def sliceAssign (p : List Int) (init final : Nat) (s : Int) : List Int :=
  sliceAssignFrom 0 init final s p

/-- `fake_sigma` (lines 373–399): a uniform sigma array, optionally
overridden over index sub-ranges found by nearest-index lookup.  The
loop variable of `for sigma in sigma_specific` shadows the scalar
`sigma`, but the base array is already built at that point. -/
def fake_sigma (x : List Int) (sigma : Int)
    (sigma_specific : Option (List (Int × Int × Int))) : List Int :=
  let p_sigma := x.map fun _ => sigma
  match sigma_specific with
  | none => p_sigma
  | some l =>
    l.foldl (fun p t => sliceAssign p (index x t.1) (index x t.2.1) t.2.2)
      p_sigma

/-! ### Spec-side helpers used to state the claims -/

/-- Remove Python's redundant trailing comma from a call expression:
`f(x, a, b, )` and `f(x, a, b)` denote the same call, so replacing
every occurrence of `", )"` by `")"` maps an expression to an
equivalent one. -/
def stripTrailingComma : List Char → List Char
  | ',' :: ' ' :: ')' :: rest => ')' :: stripTrailingComma rest
  | c :: rest => c :: stripTrailingComma rest
  | [] => []

def normalizeExpr (s : String) : String := String.mk (stripTrailingComma s.data)

/-- The id recorded in the parameter mapping for the selected use-case
of `(s, a)`. -/
def recordedId (ps : Params) (s a : String) : Option Cell :=
  match lookup2 ps s a with
  | none => none
  | some e =>
    match firstY e.use with
    | none => none
    | some i => some (e.id.getD i (Cell.s ""))

/-- The value of column `sel` at the selected use-case of `(s, a)`. -/
def cellAt (sel : Entry → List Cell) (ps : Params) (s a : String) :
    Option Cell :=
  match lookup2 ps s a with
  | none => none
  | some e =>
    match firstY e.use with
    | none => none
    | some i => some ((sel e).getD i (Cell.s ""))

/-- The `#` value (data-row number) of the selected use-case of `(s, a)`
in the parameter mapping. -/
def rowAt (ps : Params) (s a : String) : Option Nat :=
  match lookup2 ps s a with
  | none => none
  | some e =>
    match firstY e.use with
    | none => none
    | some i => some (e.row.getD i 0)

/-! ### Concrete parameter tables for the end-to-end claims -/

/-- A one-use-case entry (columns `min`/`max`/`fitted`/`error`/`id`
empty, as in a freshly filled sheet). -/
def mkEnt (use vary guess : Cell) (row : Nat) : Entry :=
  { use := [use], vary := [vary], guess := [guess], min := [.s ""],
    max := [.s ""], fitted := [.s ""], error := [.s ""], id := [.s ""],
    row := [row] }

/-- Scenario 1 (C1): submodel `gauss`, `amplitude` free with
guess 1 / min 0 / max 10, `center` fixed at guess 5. -/
def tblC1 : Params :=
  [("gauss",
    [("amplitude",
      { use := [.s "y"], vary := [.s "y"], guess := [.n 1], min := [.n 0],
        max := [.n 10], fitted := [.s ""], error := [.s ""], id := [.s ""],
        row := [0] }),
     ("center", mkEnt (.s "y") (.s "n") (.n 5) 1)])]

def regC1 : Registry := [("gauss", ["x", "amplitude", "center"])]

/-- Scenario 2 (C2): two active instances of `gauss`, with `gauss#2`'s
`width` linked to `gauss#1`'s free `width`. -/
def entA1 : Entry := mkEnt (.s "y") (.s "y") (.n 1) 0
def entW1 : Entry := mkEnt (.s "y") (.s "y") (.n 2) 1
def entA2 : Entry := mkEnt (.s "y") (.s "y") (.n 3) 2
def entW2 : Entry := mkEnt (.s "y") (.s "gauss#1,width") (.s "") 3

def regC2 : Registry := [("gauss", ["x", "amplitude", "width"])]

/-- Sheet row order `gauss#1` before `gauss#2`: the link target is
processed before the link. -/
def tblC2A : Params :=
  [("gauss#1", [("amplitude", entA1), ("width", entW1)]),
   ("gauss#2", [("amplitude", entA2), ("width", entW2)])]

/-- The same table with `gauss#2` first: the link is processed before
the target. -/
def tblC2B : Params :=
  [("gauss#2", [("amplitude", entA2), ("width", entW2)]),
   ("gauss#1", [("amplitude", entA1), ("width", entW1)])]

/-- C3 input 1: the link target pair `(g, b)` is present in the
parameter mapping, but argument `b` does not occur under the *current*
submodel `f`. -/
def tblC3a : Params :=
  [("f", [("a", mkEnt (.s "y") (.s "g,b") (.n 1) 0)]),
   ("g", [("b", mkEnt (.s "y") (.s "y") (.n 2) 1)])]

/-- C3 input 2: the link target pair `(g, a)` is absent from the
parameter mapping, but `g` is a known submodel and `a` occurs under the
current submodel `f`. -/
def tblC3b : Params :=
  [("f", [("a", mkEnt (.s "y") (.s "g,a") (.n 1) 0)]),
   ("g", [("b", mkEnt (.s "y") (.s "y") (.n 2) 1)])]

def regC3 : Registry := [("f", ["x", "a"]), ("g", ["x", "b"])]

/-- C4: a circular link chain `a → b → a` inside submodel `f`. -/
def tblC4 : Params :=
  [("f", [("a", mkEnt (.s "y") (.s "f,b") (.n 1) 0),
          ("b", mkEnt (.s "y") (.s "f,a") (.n 2) 1)])]

def regC4 : Registry := [("f", ["x", "a", "b"])]

/-- C6 counterexample: active submodel `f` whose required argument
`sigma` has no use-case (no sheet row) at all. -/
def tblC6 : Params := [("f", [("a", mkEnt (.s "y") (.s "y") (.n 1) 0)])]

def regC6 : Registry := [("f", ["x", "a", "sigma"])]

/-- C6 witness table: `sigma` has a use-case, but none with `use = 'y'`. -/
def tblC6w : Params :=
  [("f", [("a", mkEnt (.s "y") (.s "y") (.n 1) 0),
          ("sigma", mkEnt (.s "n") (.s "y") (.n 2) 1)])]

/-- C8: a fixed parameter (whose cells get written during traversal)
followed by a free parameter with an empty guess (which makes the final
validation raise). -/
def tblC8 : Params :=
  [("f", [("a", mkEnt (.s "y") (.s "n") (.n 7) 0),
          ("b", mkEnt (.s "y") (.s "y") (.s "") 1)])]

def regC8 : Registry := [("f", ["x", "a", "b"])]

/-- An empty pre-call store: every cell blank. -/
def store0 : Store := fun _ _ => Cell.s ""

/-- A write log that starts with the id-column clear of line 109. -/
def headClear (ws : List Write) : Prop := ws.head? = some Write.clearIds

/-- The write log of every outcome of a computation starts with the
id-column clear (`getW` extracts the log from a success value). -/
def Res.writesOk {α : Type} (getW : α → List Write) : Res α → Prop
  | .ok a => headClear (getW a)
  | .err _ w => headClear w
  | .hang => True

/-- C7 witness state: one free parameter `p0` with an empty guess. -/
def stW1 : St :=
  { var_string := "p0, ", model_string := "f(x, p0, ) + ", p_min := [.s ""],
    p_max := [.s ""], p_guess := [.s ""], p_fitted := [.s ""],
    p_error := [.s ""], p := 1, x := 0, linked_parameters := [],
    writes := [.clearIds], params := [], frags := [] }

/-- C7 witness state: one free parameter with guess present but empty
min/max/fitted/error cells. -/
def stW2 : St :=
  { var_string := "p0, ", model_string := "f(x, p0, ) + ", p_min := [.s ""],
    p_max := [.s ""], p_guess := [.n 1], p_fitted := [.s ""],
    p_error := [.s ""], p := 1, x := 0, linked_parameters := [],
    writes := [.clearIds], params := [], frags := [] }

/-! ### Well-formedness of parameter tables (used for C5)

`get_parameters` numbers the sheet rows and builds one use-case per
sheet row, so in every table it produces the `#` values are pairwise
distinct across all use-cases, dictionary keys are unique, and all
column sequences of an entry have equal length (the data-model
invariant of §3 of the spec). -/

/-- The part of an entry the engine never mutates in place (it only
rewrites `id` / `fitted` / `error` slots). -/
def stableOf (e : Entry) :
    List Cell × List Cell × List Cell × List Cell × List Cell × List Nat :=
  (e.use, e.vary, e.guess, e.min, e.max, e.row)

/-- The stable skeleton of a mapping: keys plus stable columns. -/
def skel (ps : Params) :
    List (String × List (String ×
      (List Cell × List Cell × List Cell × List Cell × List Cell × List Nat))) :=
  ps.map fun q => (q.1, q.2.map fun w => (w.1, stableOf w.2))

/-- The `#` columns of all entries, in order. -/
def rowLists (ps : Params) : List (List Nat) :=
  ps.flatMap fun q => q.2.map fun w => w.2.row

/-- Every sheet-row number belongs to at most one use-case. -/
def RowsNodup (ps : Params) : Prop := (rowLists ps).flatten.Nodup

/-- Python dictionaries: no duplicate submodel or argument keys. -/
def KeysNodup (ps : Params) : Prop :=
  (ps.map Prod.fst).Nodup ∧ ∀ q ∈ ps, (q.2.map Prod.fst).Nodup

/-- The data-model invariant of §3 of the spec, for the columns the
engine indexes by the selected use-case: the `#`/id/fitted/error
columns of every entry have the length of its `use` column. -/
def WFlen (ps : Params) : Prop :=
  ∀ q ∈ ps, ∀ w ∈ q.2,
    w.2.row.length = w.2.use.length ∧ w.2.id.length = w.2.use.length ∧
    w.2.fitted.length = w.2.use.length ∧ w.2.error.length = w.2.use.length

/-- The result record that `finalize` produces on the C7 witness state
`stW2`. -/
def rW : Result :=
  { var_string := "p0, ", model_string := "lambda x, p0: f(x, p0, )",
    p_min := [.negInf], p_max := [.posInf], p_guess := [.n 1],
    p_fitted := [.n 0], p_error := [.n 0], id_list := ["p0"],
    linked_parameters := [], writes := [.clearIds], params := [],
    frags := [], submodel := [] }

/-- The full result of `update_model 0 regC1 tblC1` (used by the C5
witness). -/
def rC1 : Result :=
  { var_string := "p0, ",
    model_string := "lambda x, p0: gauss(x, p0, 5, )",
    p_min := [.n 0], p_max := [.n 10], p_guess := [.n 1],
    p_fitted := [.n 0], p_error := [.n 0], id_list := ["p0"],
    linked_parameters := [],
    writes := [.clearIds, .cell 2 .idC (.s "p0"), .cell 3 .idC (.s "-"),
               .cell 3 .fittedC (.n 5), .cell 3 .errorC (.n 0)],
    params :=
      [("gauss",
        [("amplitude",
          { use := [.s "y"], vary := [.s "y"], guess := [.n 1],
            min := [.n 0], max := [.n 10], fitted := [.s ""],
            error := [.s ""], id := [.s "p0"], row := [0] }),
         ("center",
          { use := [.s "y"], vary := [.s "n"], guess := [.n 5],
            min := [.s ""], max := [.s ""], fitted := [.n 5],
            error := [.n 0], id := [.s "-"], row := [1] })])],
    frags := [("gauss", ["p0, ", "5, "])],
    submodel := [("gauss", "gauss(x, 1, 5)", "gauss(x, 0, 5)")] }

/-! ### The use-case view (C10) -/

/-- The per-(submodel, argument) data every use-case-selecting operation
actually consumes: the full `use` column (which determines activity and
the selected use-case), the lengths of the three columns mutated in
place, and each column's value at the selected use-case. -/
structure EView where
  use : List Cell
  nid : Nat
  nfit : Nat
  nerr : Nat
  varyA : Cell
  guessA : Cell
  minA : Cell
  maxA : Cell
  fitA : Cell
  errA : Cell
  idA : Cell
  rowA : Nat
deriving DecidableEq

/-- The selected use-case: the first one with `use = 'y'`
(`['use'].index('y')`), with the out-of-range placeholder `use.length`
when there is none — in that case no selecting operation reads a cell. -/
def selIdx (e : Entry) : Nat := (firstY e.use).getD e.use.length

def viewOf (e : Entry) : EView :=
  { use := e.use, nid := e.id.length, nfit := e.fitted.length,
    nerr := e.error.length,
    varyA := e.vary.getD (selIdx e) (Cell.s ""),
    guessA := e.guess.getD (selIdx e) (Cell.s ""),
    minA := e.min.getD (selIdx e) (Cell.s ""),
    maxA := e.max.getD (selIdx e) (Cell.s ""),
    fitA := e.fitted.getD (selIdx e) (Cell.s ""),
    errA := e.error.getD (selIdx e) (Cell.s ""),
    idA := e.id.getD (selIdx e) (Cell.s ""),
    rowA := e.row.getD (selIdx e) 0 }

def viewArgs (args : List (String × Entry)) : List (String × EView) :=
  args.map fun w => (w.1, viewOf w.2)

/-- Two parameter tables are view-equal iff their `viewP`s coincide:
same submodels and arguments, same `use` columns, and same cells at
each argument's first use-case with `use = 'y'`.  Later use-cases may
differ arbitrarily. -/
def viewP (ps : Params) : List (String × List (String × EView)) :=
  ps.map fun q => (q.1, viewArgs q.2)

/-- `St` with the parameter table replaced by its view: everything
`update_model` can observe of its state. -/
structure StV where
  var_string : String
  model_string : String
  p_min : List Cell
  p_max : List Cell
  p_guess : List Cell
  p_fitted : List Cell
  p_error : List Cell
  p : Nat
  x : Nat
  linked_parameters : List (String × Nat)
  writes : List Write
  params : List (String × List (String × EView))
  frags : List (String × List String)
deriving DecidableEq

def obsSt (st : St) : StV :=
  { var_string := st.var_string, model_string := st.model_string,
    p_min := st.p_min, p_max := st.p_max, p_guess := st.p_guess,
    p_fitted := st.p_fitted, p_error := st.p_error, p := st.p, x := st.x,
    linked_parameters := st.linked_parameters, writes := st.writes,
    params := viewP st.params, frags := st.frags }

/-- `Result` with the parameter table replaced by its view. -/
structure ResultV where
  var_string : String
  model_string : String
  p_min : List Cell
  p_max : List Cell
  p_guess : List Cell
  p_fitted : List Cell
  p_error : List Cell
  id_list : List String
  linked_parameters : List (String × Nat)
  writes : List Write
  params : List (String × List (String × EView))
  frags : List (String × List String)
  submodel : List (String × String × String)
deriving DecidableEq

def obsResult (r : Result) : ResultV :=
  { var_string := r.var_string, model_string := r.model_string,
    p_min := r.p_min, p_max := r.p_max, p_guess := r.p_guess,
    p_fitted := r.p_fitted, p_error := r.p_error, id_list := r.id_list,
    linked_parameters := r.linked_parameters, writes := r.writes,
    params := viewP r.params, frags := r.frags, submodel := r.submodel }

def Res.map {α β : Type} (f : α → β) : Res α → Res β
  | .ok a => .ok (f a)
  | .err e w => .err e w
  | .hang => .hang

/-- The observables of `fit`'s write-back: the store writes and the view
of the mutated table. -/
def obsPW (q : Params × List Write) :
    List (String × List (String × EView)) × List Write :=
  (viewP q.1, q.2)

/-- A two-use-case entry (both rows' `min`/`max`/`fitted`/`error`/`id`
empty). -/
def mkEnt2 (use1 vary1 guess1 : Cell) (r1 : Nat)
    (use2 vary2 guess2 : Cell) (r2 : Nat) : Entry :=
  { use := [use1, use2], vary := [vary1, vary2], guess := [guess1, guess2],
    min := [.s "", .s ""], max := [.s "", .s ""],
    fitted := [.s "", .s ""], error := [.s "", .s ""],
    id := [.s "", .s ""], row := [r1, r2] }

/-- Scenario for C10: `center` has two use-cases with `use = 'y'`
(sheet rows 1 and 2); the tables differ only in the later one. -/
def tblC10a : Params :=
  [("gauss",
    [("amplitude", mkEnt (.s "y") (.s "y") (.n 1) 0),
     ("center", mkEnt2 (.s "y") (.s "n") (.n 5) 1 (.s "y") (.s "y") (.n 7) 2)])]

def tblC10b : Params :=
  [("gauss",
    [("amplitude", mkEnt (.s "y") (.s "y") (.n 1) 0),
     ("center", mkEnt2 (.s "y") (.s "n") (.n 5) 1 (.s "y") (.s "n") (.n 99) 2)])]

def useC10 : List Cell := [Cell.s "n", Cell.s "y", Cell.s "y"]

/-! ## Theorems -/

/-- C1: for the scenario-1 table (single active `gauss`, `amplitude`
free with guess 1 / min 0 / max 10, `center` fixed at guess 5, both
selected), `update_model` produces a model expression equivalent to
`gauss(x, p0, 5)` (the source emits a redundant trailing comma), the
free-parameter guess vector `[1]`, and bounds `([0], [10])` — for any
fuel, since no link chain is followed. -/
theorem C1_single_gauss_rebuild (fuel : Nat) :
    (update_model fuel regC1 tblC1).proj
      (fun r => (normalizeExpr r.model_string, r.p_guess, r.p_min, r.p_max)) =
    some ("lambda x, p0: gauss(x, p0, 5)",
          [Cell.n 1], [Cell.n 0], [Cell.n 10]) := rfl

/-- C2 counterexample: with the natural sheet order (`gauss#1` before
`gauss#2`), the link target `gauss#1.width` is processed before the
link, so its free use-case is assigned the fresh id `p1` (the shared
id `gauss#1,width ↦ x0` is only registered later, while processing
`gauss#2.width`).  The two linked arguments thus receive *different*
ids (`p1` vs `x0`), `x0` never enters `var_string`/`id_list`, and the
rebuild aborts inside `update_submodels` with the uncaught `ValueError`
of `self.id_list.index('x0')` — contradicting the claim that exactly
one shared id `x0` is assigned regardless of processing order. -/
theorem C2_order_counterexample :
    update_model 0 regC2 tblC2A =
      Res.err (.valueErrorIdList "x0")
        [.clearIds,
         .cell 2 .idC (Cell.s "p0"),
         .cell 3 .idC (Cell.s "p1"),
         .cell 4 .idC (Cell.s "p2"),
         .cell 5 .idC (Cell.s "x0")] := by decide

/-- C2 amended: when every linking argument is processed before its
link target (here `gauss#2`, which holds the link, comes before
`gauss#1` in the table), `update_model` assigns exactly one shared id
`x0`, recorded for both width arguments, appearing once in `id_list`
and in both submodels' argument lists of the composite expression, and
the free-parameter guess vector has exactly one width entry (guess 2,
next to the two amplitude guesses 3 and 1). -/
theorem C2_shared_id_link_first :
    (update_model 0 regC2 tblC2B).proj
      (fun r =>
        (recordedId r.params "gauss#1" "width",
         recordedId r.params "gauss#2" "width",
         r.id_list, r.p_guess, normalizeExpr r.model_string)) =
    some (some (Cell.s "x0"), some (Cell.s "x0"),
          ["p0", "p1", "x0"],
          [Cell.n 3, Cell.n 1, Cell.n 2],
          "lambda x, p0, p1, x0: gauss(x, p0, x0) + gauss(x, p1, x0)") := by decide

/-- C3: the unresolved-link guard of lines 151/161 tests
`arg2link in self.parameters[submodel]` — the *current* submodel's
argument dict instead of the target's.  Consequently (input 1) a link
to the pair `(g, b)` that *is* present in the mapping is rejected with
the unresolved-link error `Cannot find submodel 'g' with arg 'b'`
whenever `b` is not an argument of the current submodel, and (input 2)
a link to the absent pair `(g, a)` slips past the guard and dies with
an uncaught `KeyError` instead of the unresolved-link error.  Both
directions of the claimed iff fail, while the error message documents
the intended check — a slip in the code (`parameters[submodel]` for
`parameters[submodel2link]`). -/
theorem C3_link_check_wrong_dict :
    (update_model 0 regC3 tblC3a).errOf = some (.cannotFindLink "g" "b") ∧
    (lookup2 tblC3a "g" "b").isSome = true ∧
    (update_model 0 regC3 tblC3b).errOf = some (.keyError "a") ∧
    (lookup2 tblC3b "g" "a").isNone = true := by decide

/-- The circular chain `a → b → a` of `tblC4` cycles between two loop
states, never reaching a terminal `'y'`/`'n'`, for every fuel. -/
theorem c4_loop (ws : List Write) : ∀ fuel : Nat,
    linkLoop tblC4 "f" ws fuel "f" "b" 0 (Cell.s "f,a") = Res.hang ∧
    linkLoop tblC4 "f" ws fuel "f" "a" 0 (Cell.s "f,b") = Res.hang
  | 0 => ⟨rfl, rfl⟩
  | fuel + 1 => ⟨(c4_loop ws fuel).2, (c4_loop ws fuel).1⟩

/-- C4: on a parameter table whose link chain forms a cycle
(`a → b → a`, no terminal `y`/`n`), the `while` loop of lines 156–165
never terminates: `update_model` exhausts any amount of fuel instead of
failing with an error, contradicting the claim that it terminates and
fails deterministically. -/
theorem C4_cycle_never_terminates (fuel : Nat) :
    update_model fuel regC4 tblC4 = Res.hang := by
  have h := (c4_loop [Write.clearIds] fuel).1
  simp only [tblC4, mkEnt] at h
  simp [update_model, processList, processSubmodel, processArgs, processArg,
        tblC4, regC4, init_st, isActive, lookup2, firstY, mkEnt, splitVary,
        pySplit, splitAux, lookupLinked, hasSub, hasArg, h,
        List.lookup, List.findIdx?]

/-- C6 counterexample: lines 138–142 catch only `ValueError`, so when a
required argument of an active submodel has *no* use-case at all (no
sheet row), the dictionary access `self.parameters[submodel][arg]`
raises an uncaught `KeyError` instead of `MissingArgument`: on `tblC6`,
where active submodel `f` lacks any row for its required argument
`sigma`, the build errors with `KeyError('sigma')`, not with
`MissingArgument('f', 'sigma')`. -/
theorem C6_no_usecase_keyerror :
    (update_model 0 regC6 tblC6).errOf = some (.keyError "sigma") ∧
    (update_model 0 regC6 tblC6).errOf ≠ some (.missingArgument "f" "sigma") := by
  decide

/-- C6 (amended): during model assembly, a required argument of an
active submodel that has at least one use-case but none with
`use = 'y'` makes the build fail with `MissingArgument` naming that
submodel and argument, aborting the processing of the remaining
arguments; a required argument with no use-case at all fails with a
key-lookup error on the argument name instead.  End to end, on the
witness table `tblC6w` (where `sigma` has one use-case with
`use = 'n'`), `update_model` raises `MissingArgument('f', 'sigma')`. -/
theorem C6_missing_argument_amended :
    (∀ (fuel : Nat) (submodel arg : String) (st : St) (e : Entry)
        (rest : List String),
        lookup2 st.params submodel arg = some e →
        firstY e.use = none →
        processArgs fuel submodel (arg :: rest) st =
          Res.err (.missingArgument submodel arg) st.writes) ∧
    (∀ (fuel : Nat) (submodel arg : String) (st : St) (rest : List String),
        lookup2 st.params submodel arg = none →
        processArgs fuel submodel (arg :: rest) st =
          Res.err (.keyError arg) st.writes) ∧
    (update_model 0 regC6 tblC6w).errOf =
      some (.missingArgument "f" "sigma") := by
  refine ⟨?_, ?_, by decide⟩
  · intro fuel submodel arg st e rest h1 h2
    simp [processArgs, processArg, h1, h2]
  · intro fuel submodel arg st rest h1
    simp [processArgs, processArg, h1]

/-- C6 witness: the amended theorem applied to the concrete table
`tblC6w` (argument `sigma` present with `use = 'n'` only) and to the
absent argument name `nope`. -/
theorem C6_missing_argument_witness :
    processArgs 0 "f" ["sigma"] (init_st tblC6w) =
      Res.err (.missingArgument "f" "sigma") (init_st tblC6w).writes ∧
    processArgs 0 "f" ["nope"] (init_st tblC6w) =
      Res.err (.keyError "nope") (init_st tblC6w).writes :=
  ⟨C6_missing_argument_amended.1 0 "f" "sigma" (init_st tblC6w)
      (mkEnt (.s "n") (.s "y") (.n 2) 1) [] (by decide) (by decide),
   C6_missing_argument_amended.2.1 0 "f" "nope" (init_st tblC6w) []
      (by decide)⟩

/-- C8 counterexample: on `tblC8` the rebuild aborts with the
missing-guess validation error, but the Tabular Store has already been
mutated during the traversal: the id column was cleared, the fixed
parameter `a`'s id/fitted/error cells and the free parameter `b`'s id
cell were written.  Applying the writes issued before the abort to an
all-blank pre-call store changes the fitted cell of row 2 from blank to
7, so the store is not left in its pre-call state. -/
theorem C8_partial_writes_counterexample :
    update_model 0 regC8 tblC8 =
      Res.err (.missingGuess ["p0"])
        [.clearIds, .cell 2 .idC (Cell.s "-"), .cell 2 .fittedC (Cell.n 7),
         .cell 2 .errorC (Cell.n 0), .cell 3 .idC (Cell.s "p0")] ∧
    applyWrites store0
        [.clearIds, .cell 2 .idC (Cell.s "-"), .cell 2 .fittedC (Cell.n 7),
         .cell 2 .errorC (Cell.n 0), .cell 3 .idC (Cell.s "p0")] 2 .fittedC
      = Cell.n 7 ∧
    store0 2 .fittedC = Cell.s "" :=
  ⟨by decide, rfl, rfl⟩

/-! ### Write-log invariants (used for C8)

Every write log the engine can leave behind — on success or on a raised
error — starts with the id-column clear of line 109. -/


theorem headClear_append (ws l : List Write) (h : headClear ws) :
    headClear (ws ++ l) := by
  cases ws with
  | nil => simp [headClear] at h
  | cons a t => simpa [headClear] using h

theorem linkLoop_err_writes (ps : Params) (sm : String) (ws : List Write) :
    ∀ (fuel : Nat) (s2 a2 : String) (tul : Nat) (v : Cell) (e : Err)
      (w : List Write),
      linkLoop ps sm ws fuel s2 a2 tul v = .err e w → w = ws := by
  intro fuel
  induction fuel with
  | zero =>
    intro s2 a2 tul v e w h
    rw [linkLoop] at h
    split at h
    · exact absurd h (by simp)
    · exact absurd h (by simp)
  | succ n ih =>
    intro s2 a2 tul v e w h
    rw [linkLoop] at h
    split at h
    · exact absurd h (by simp)
    · split at h
      · injection h with h1 h2; exact h2.symm
      · split at h
        · injection h with h1 h2; exact h2.symm
        · exact ih _ _ _ _ _ _ h

theorem processArg_writesOk (fuel : Nat) (submodel arg : String) (st : St)
    (h : headClear st.writes) :
    (processArg fuel submodel arg st).writesOk (fun q => q.1.writes) := by
  unfold processArg
  dsimp only
  split
  · exact h
  · split
    · exact h
    · split
      · split
        · exact h
        · split
          · exact h
          · split
            · trivial
            · rename_i heq
              rw [linkLoop_err_writes _ _ _ _ _ _ _ _ _ _ heq]; exact h
            · split
              · split
                · exact h
                · exact headClear_append _ _ h
              · split
                · exact headClear_append _ _ h
                · exact headClear_append _ _ h
      · split
        · exact headClear_append _ _ h
        · split
          · exact headClear_append _ _ h
          · exact headClear_append _ _ h

theorem processArgs_writesOk (fuel : Nat) (submodel : String) :
    ∀ (as : List String) (st : St), headClear st.writes →
      (processArgs fuel submodel as st).writesOk (fun q => q.1.writes)
  | [], _, h => h
  | a :: rest, st, h => by
    have hpa := processArg_writesOk fuel submodel a st h
    unfold processArgs
    cases hres : processArg fuel submodel a st with
    | hang => trivial
    | err e w => rw [hres] at hpa; exact hpa
    | ok q =>
      rw [hres] at hpa
      obtain ⟨st1, f⟩ := q
      dsimp only
      have hrec := processArgs_writesOk fuel submodel rest st1 hpa
      cases hres2 : processArgs fuel submodel rest st1 with
      | hang => trivial
      | err e w => rw [hres2] at hrec; exact hrec
      | ok q2 => rw [hres2] at hrec; obtain ⟨st2, fs⟩ := q2; exact hrec

theorem processSubmodel_writesOk (fuel : Nat) (reg : Registry) (s : String)
    (st : St) (h : headClear st.writes) :
    (processSubmodel fuel reg s st).writesOk St.writes := by
  unfold processSubmodel
  split
  · dsimp only
    split
    · exact h
    · rename_i args_expected heq
      have hpa := processArgs_writesOk fuel s args_expected.tail
        { st with model_string := st.model_string ++ (pySplit s '#').headD s ++ "(x, " } h
      cases hres : processArgs fuel s args_expected.tail
          { st with model_string := st.model_string ++ (pySplit s '#').headD s ++ "(x, " } with
      | hang => trivial
      | err e w => rw [hres] at hpa; exact hpa
      | ok q => rw [hres] at hpa; obtain ⟨st2, fs⟩ := q; exact hpa
  · exact h

theorem processList_writesOk (fuel : Nat) (reg : Registry) :
    ∀ (ks : List String) (st : St), headClear st.writes →
      (processList fuel reg ks st).writesOk St.writes
  | [], _, h => h
  | s :: rest, st, h => by
    have hps := processSubmodel_writesOk fuel reg s st h
    unfold processList
    cases hres : processSubmodel fuel reg s st with
    | hang => trivial
    | err e w => rw [hres] at hps; exact hps
    | ok st1 => rw [hres] at hps; exact processList_writesOk fuel reg rest st1 hps

theorem finalize_writesOk (reg : Registry) (st : St) (h : headClear st.writes) :
    (finalize reg st).writesOk Result.writes := by
  unfold finalize
  dsimp only
  split
  · exact h
  · split
    · exact h
    · exact h

theorem update_model_writesOk (fuel : Nat) (reg : Registry) (ps : Params) :
    (update_model fuel reg ps).writesOk Result.writes := by
  unfold update_model
  have h := processList_writesOk fuel reg (ps.map Prod.fst) (init_st ps) rfl
  cases hres : processList fuel reg (ps.map Prod.fst) (init_st ps) with
  | hang => trivial
  | err e w => rw [hres] at h; exact h
  | ok st => rw [hres] at h; exact finalize_writesOk reg st h

/-- C8 (amended): an `update_model` call that aborts with the
missing-guess validation error has already mutated the Tabular Store:
its write log is non-empty and starts with the id-column clear of line
109, issued before any validation; fixed-parameter id/fitted/error
cells written during traversal (see the counterexample) also precede
the abort.  Only the claim's "no partial writes" is dropped. -/
theorem C8_writes_precede_validation (fuel : Nat) (reg : Registry)
    (ps : Params) (ids : List String) (ws : List Write)
    (h : update_model fuel reg ps = Res.err (.missingGuess ids) ws) :
    ws ≠ [] ∧ ws.head? = some Write.clearIds := by
  have h2 := update_model_writesOk fuel reg ps
  rw [h] at h2
  refine ⟨?_, h2⟩
  rintro rfl
  simp [Res.writesOk, headClear] at h2

/-- C8 witness: the amended theorem applied to the concrete aborting
rebuild of `tblC8`. -/
theorem C8_writes_precede_validation_witness :
    ([Write.clearIds, .cell 2 .idC (Cell.s "-"), .cell 2 .fittedC (Cell.n 7),
      .cell 2 .errorC (Cell.n 0), .cell 3 .idC (Cell.s "p0")] : List Write) ≠ [] ∧
    ([Write.clearIds, .cell 2 .idC (Cell.s "-"), .cell 2 .fittedC (Cell.n 7),
      .cell 2 .errorC (Cell.n 0), .cell 3 .idC (Cell.s "p0")] : List Write).head?
      = some Write.clearIds :=
  C8_writes_precede_validation 0 regC8 tblC8 ["p0"] _ (by decide)

/-! ### Guess validation and default substitution (C7) -/

theorem map_subst_of_not_mem (l : List Cell) (d : Cell)
    (h : Cell.s "" ∉ l) :
    l.map (fun c => if c = Cell.s "" then d else c) = l := by
  induction l with
  | nil => rfl
  | cons a t ih =>
    simp only [List.mem_cons, not_or] at h
    have ha : a ≠ Cell.s "" := fun hc => h.1 hc.symm
    simp [if_neg ha, ih h.2]

theorem guess_missing_from_eq : ∀ (gs : List Cell) (n : Nat) (ids : List String),
    n + gs.length ≤ ids.length →
    ((gs.enumFrom n).filter (fun q => q.2 = Cell.s "")).map
        (fun q => ids.getD q.1 "") =
      ((ids.drop n).zip gs).filterMap
        (fun q => if q.2 = Cell.s "" then some q.1 else none)
  | [], n, ids, h => by simp
  | c :: t, n, ids, h => by
    have hn : n < ids.length := by simp at h; omega
    have ih := guess_missing_from_eq t (n + 1) ids (by simp at h ⊢; omega)
    have hzip : (ids.drop n).zip (c :: t)
        = (ids[n], c) :: (ids.drop (n + 1)).zip t := by
      rw [List.drop_eq_getElem_cons hn, List.zip_cons_cons]
    rw [hzip]
    simp only [List.enumFrom]
    by_cases hc : c = Cell.s ""
    · simp [hc, List.getElem?_eq_getElem hn]
      simpa [List.getD] using ih
    · simp [hc]
      simpa [List.getD] using ih

theorem guess_missing_eq_zip (ids : List String) (gs : List Cell)
    (h : gs.length ≤ ids.length) :
    guess_missing ids gs =
      ((ids.zip gs).filterMap fun q =>
        if q.2 = Cell.s "" then some q.1 else none) := by
  have := guess_missing_from_eq gs 0 ids (by omega)
  simpa [guess_missing, List.enum] using this

theorem subst_eq_map (l : List Cell) (d : Cell) :
    (if l.contains (Cell.s "") then
      l.map (fun c => if c = Cell.s "" then d else c) else l)
      = l.map (fun c => if c = Cell.s "" then d else c) := by
  split
  · rfl
  · rename_i hc
    exact (map_subst_of_not_mem l d (fun hm => hc (by simpa using hm))).symm

/-- C7: at the end of `update_model` (the `finalize` stage), if any
free-parameter guess cell is empty, a validation error is raised that
lists the id of every free parameter whose guess is missing (the ids
paired positionally with the guess vector); otherwise any rebuild that
returns replaces every empty min by `-inf`, every empty max by `+inf`,
and every empty fitted or error entry by `0`. -/
theorem C7_guess_validation_and_defaults (reg : Registry) (st : St)
    (hlen : st.p_guess.length ≤ (mk_id_list st.var_string).length) :
    (Cell.s "" ∈ st.p_guess →
      finalize reg st =
        Res.err (.missingGuess
          (((mk_id_list st.var_string).zip st.p_guess).filterMap fun q =>
            if q.2 = Cell.s "" then some q.1 else none)) st.writes) ∧
    (Cell.s "" ∉ st.p_guess →
      ∀ r, finalize reg st = Res.ok r →
        r.p_min = st.p_min.map (fun c => if c = Cell.s "" then Cell.negInf else c) ∧
        r.p_max = st.p_max.map (fun c => if c = Cell.s "" then Cell.posInf else c) ∧
        r.p_fitted = st.p_fitted.map (fun c => if c = Cell.s "" then Cell.n 0 else c) ∧
        r.p_error = st.p_error.map (fun c => if c = Cell.s "" then Cell.n 0 else c)) := by
  constructor
  · intro hmem
    have hc : st.p_guess.contains (Cell.s "") = true := by simpa using hmem
    unfold finalize
    dsimp only
    rw [if_pos hc, guess_missing_eq_zip _ _ hlen]
  · intro hnm r hr
    have hc : ¬ st.p_guess.contains (Cell.s "") = true := by simpa using hnm
    unfold finalize at hr
    dsimp only at hr
    rw [if_neg hc] at hr
    split at hr
    · exact absurd hr (by simp)
    · injection hr with hr
      subst hr
      exact ⟨subst_eq_map _ _, subst_eq_map _ _,
             subst_eq_map _ _, subst_eq_map _ _⟩

/-- C7 witness: the validation theorem applied to the two concrete
states `stW1` (empty guess, raises listing `p0`) and `stW2` (guess
present, defaults substituted in `rW`). -/
theorem C7_guess_validation_witness :
    finalize [] stW1 = Res.err (.missingGuess ["p0"]) [Write.clearIds] ∧
    rW.p_min = [Cell.negInf] ∧ rW.p_max = [Cell.posInf] ∧
    rW.p_fitted = [Cell.n 0] ∧ rW.p_error = [Cell.n 0] := by
  constructor
  · have h := (C7_guess_validation_and_defaults [] stW1 (by decide)).1 (by decide)
    rw [h]; decide
  · have h := (C7_guess_validation_and_defaults [] stW2 (by decide)).2
      (by decide) rW (by decide)
    exact ⟨h.1.trans (by decide), h.2.1.trans (by decide),
           h.2.2.1.trans (by decide), h.2.2.2.trans (by decide)⟩

/-! ### argmin, slice assignment and fake_sigma (C9) -/

theorem argmin_lt_length : ∀ (l : List Nat), l ≠ [] → argmin l < l.length
  | [], h => absurd rfl h
  | [_], _ => by simp [argmin]
  | a :: b :: r, _ => by
    rw [argmin]
    split
    · simp
    · have := argmin_lt_length (b :: r) (by simp)
      simpa using Nat.succ_lt_succ this

theorem getD_argmin : ∀ (l : List Nat), l ≠ [] → l.getD (argmin l) 0 = listMin l
  | [], h => absurd rfl h
  | [_], _ => by simp [argmin, listMin]
  | a :: b :: r, _ => by
    rw [argmin, listMin]
    split
    · rename_i hle
      simp only [List.getD_cons_zero]
      exact (min_eq_left hle).symm
    · rename_i hgt
      have := getD_argmin (b :: r) (by simp)
      simp only [List.getD_cons_succ, this]
      exact (min_eq_right (by omega)).symm

theorem listMin_le_getD : ∀ (l : List Nat) (j : Nat), j < l.length →
    listMin l ≤ l.getD j 0
  | [], j, h => by simp at h
  | [a], j, h => by
    cases j with
    | zero => simp [listMin]
    | succ j' => simp at h
  | a :: b :: r, j, h => by
    rw [listMin]
    cases j with
    | zero => simp only [List.getD_cons_zero]; exact min_le_left _ _
    | succ j' =>
      have := listMin_le_getD (b :: r) j' (by simpa using h)
      simp only [List.getD_cons_succ]
      exact le_trans (min_le_right _ _) this

theorem listMin_lt_getD_of_lt_argmin : ∀ (l : List Nat) (j : Nat),
    j < argmin l → listMin l < l.getD j 0
  | [], j, h => by simp [argmin] at h
  | [a], j, h => by simp [argmin] at h
  | a :: b :: r, j, h => by
    rw [argmin] at h
    split at h
    · omega
    · rename_i hgt
      cases j with
      | zero =>
        rw [listMin]
        simp only [List.getD_cons_zero]
        have h1 := min_le_right a (listMin (b :: r))
        omega
      | succ j' =>
        have := listMin_lt_getD_of_lt_argmin (b :: r) j' (by omega)
        rw [listMin]
        simp only [List.getD_cons_succ]
        exact lt_of_le_of_lt (min_le_right _ _) this

theorem sliceAssignFrom_length :
    ∀ (p : List Int) (k init final : Nat) (s : Int),
      (sliceAssignFrom k init final s p).length = p.length
  | [], _, _, _, _ => rfl
  | v :: rest, k, init, final, s => by
    simp [sliceAssignFrom, sliceAssignFrom_length rest (k + 1) init final s]

theorem sliceAssignFrom_getD :
    ∀ (p : List Int) (k init final : Nat) (s : Int) (i : Nat), i < p.length →
      (sliceAssignFrom k init final s p).getD i 0 =
        if init ≤ k + i ∧ k + i < final then s else p.getD i 0
  | [], _, _, _, _, i, h => by simp at h
  | v :: rest, k, init, final, s, i, h => by
    cases i with
    | zero => simp [sliceAssignFrom]
    | succ i' =>
      have := sliceAssignFrom_getD rest (k + 1) init final s i' (by simpa using h)
      simp only [sliceAssignFrom, List.getD_cons_succ, this]
      have : k + 1 + i' = k + (i' + 1) := by omega
      rw [this]

theorem foldl_slice_getD (x : List Int) (i : Nat) :
    ∀ (ts : List (Int × Int × Int)) (p : List Int), i < p.length →
      ((ts.foldl (fun p t =>
          sliceAssign p (index x t.1) (index x t.2.1) t.2.2) p).getD i 0) =
        ts.foldl (fun acc t =>
          if index x t.1 ≤ i ∧ i < index x t.2.1 then t.2.2 else acc)
          (p.getD i 0)
  | [], p, h => rfl
  | t :: rest, p, h => by
    rw [List.foldl_cons, List.foldl_cons]
    have hlen : (sliceAssign p (index x t.1) (index x t.2.1) t.2.2).length
        = p.length := sliceAssignFrom_length ..
    rw [foldl_slice_getD x i rest _ (by rw [hlen]; exact h)]
    have := sliceAssignFrom_getD p 0 (index x t.1) (index x t.2.1) t.2.2 i h
    simp only [Nat.zero_add] at this
    rw [sliceAssign, this]

theorem getD_map_abs (x : List Int) (f : Int → Nat) (i : Nat)
    (h : i < x.length) :
    (x.map f).getD i 0 = f (x.getD i 0) := by
  rw [List.getD_eq_getElem _ _ (by simpa using h), List.getD_eq_getElem _ _ h]
  simp

/-- C9: `fake_sigma` with `sigma_specific` omitted returns an array of
length `len(x)` whose every entry equals `sigma`; with a list of
triples, the triples are applied in order, each overriding the entries
of the half-open index range from the nearest index of `x_init` to the
nearest index of `x_final` with its constant, later triples overriding
earlier ones, all other entries keeping the base value (the fold over
triples); and `index` really is nearest-index lookup: it is in range
and minimizes `|x[i] - value|`, strictly among the indices before it
(first occurrence of the minimum). -/
theorem C9_fake_sigma_spec :
    (∀ (x : List Int) (sigma : Int),
        (fake_sigma x sigma none).length = x.length ∧
        ∀ i, i < x.length → (fake_sigma x sigma none).getD i 0 = sigma) ∧
    (∀ (x : List Int) (sigma : Int) (ts : List (Int × Int × Int)) (i : Nat),
        i < x.length →
        (fake_sigma x sigma (some ts)).getD i 0 =
          ts.foldl (fun acc t =>
            if index x t.1 ≤ i ∧ i < index x t.2.1 then t.2.2 else acc)
            sigma) ∧
    (∀ (x : List Int) (v : Int) (j : Nat), x ≠ [] → j < x.length →
        index x v < x.length ∧
        (x.getD (index x v) 0 - v).natAbs ≤ (x.getD j 0 - v).natAbs ∧
        (j < index x v →
          (x.getD (index x v) 0 - v).natAbs < (x.getD j 0 - v).natAbs)) := by
  refine ⟨?_, ?_, ?_⟩
  · intro x sigma
    refine ⟨by simp [fake_sigma], ?_⟩
    intro i hi
    show (x.map fun _ => sigma).getD i 0 = sigma
    rw [List.getD_eq_getElem _ _ (by simpa using hi)]
    simp
  · intro x sigma ts i hi
    show ((ts.foldl (fun p t =>
        sliceAssign p (index x t.1) (index x t.2.1) t.2.2)
        (x.map fun _ => sigma)).getD i 0) = _
    rw [foldl_slice_getD x i ts _ (by simpa using hi)]
    congr 1
    rw [List.getD_eq_getElem _ _ (by simpa using hi)]
    simp
  · intro x v j hne hj
    have hmapne : x.map (fun a => (a - v).natAbs) ≠ [] := by simpa using hne
    have h1 : index x v < x.length := by
      have := argmin_lt_length _ hmapne
      simpa [index] using this
    have h2 := getD_argmin _ hmapne
    rw [getD_map_abs x (fun a => (a - v).natAbs)
      (argmin (x.map fun a => (a - v).natAbs)) h1] at h2
    refine ⟨h1, ?_, ?_⟩
    · have h3 := listMin_le_getD (x.map fun a => (a - v).natAbs) j
        (by simpa using hj)
      rw [getD_map_abs x (fun a => (a - v).natAbs) j hj] at h3
      show (x.getD (argmin (x.map fun a => (a - v).natAbs)) 0 - v).natAbs ≤ _
      omega
    · intro hlt
      have h4 := listMin_lt_getD_of_lt_argmin
        (x.map fun a => (a - v).natAbs) j hlt
      rw [getD_map_abs x (fun a => (a - v).natAbs) j hj] at h4
      show (x.getD (argmin (x.map fun a => (a - v).natAbs)) 0 - v).natAbs < _
      omega

/-- C9 witness: the three parts instantiated on concrete arrays — the
uniform case, the two-triple override (entry 3 of
`fake_sigma [0,10,20,30,40,50] 9 [[8,32,1],[28,51,2]]` is 2), and the
nearest-index property of `index [0,10,20,30] 15 = 1`. -/
theorem C9_fake_sigma_spec_witness :
    (fake_sigma [0, 1, 2] 9 none).getD 1 0 = 9 ∧
    (fake_sigma [0, 10, 20, 30, 40, 50] 9
        (some [(8, 32, 1), (28, 51, 2)])).getD 3 0 = 2 ∧
    index [0, 10, 20, 30] 15 < 4 ∧
    (([0, 10, 20, 30] : List Int).getD (index [0, 10, 20, 30] 15) 0 - 15).natAbs
      ≤ (([0, 10, 20, 30] : List Int).getD 2 0 - 15).natAbs ∧
    (([0, 10, 20, 30] : List Int).getD (index [0, 10, 20, 30] 15) 0 - 15).natAbs
      < (([0, 10, 20, 30] : List Int).getD 0 0 - 15).natAbs := by
  refine ⟨(C9_fake_sigma_spec.1 [0, 1, 2] 9).2 1 (by decide),
          (C9_fake_sigma_spec.2.1 [0, 10, 20, 30, 40, 50] 9
              [(8, 32, 1), (28, 51, 2)] 3 (by decide)).trans (by decide),
          (C9_fake_sigma_spec.2.2 [0, 10, 20, 30] 15 2 (by decide)
              (by decide)).1,
          (C9_fake_sigma_spec.2.2 [0, 10, 20, 30] 15 2 (by decide)
              (by decide)).2.1,
          (C9_fake_sigma_spec.2.2 [0, 10, 20, 30] 15 0 (by decide)
              (by decide)).2.2 (by decide)⟩

/-! ### Stability, locality and row-disjointness of the assembly loop
(C5) -/

theorem lookup_map_if {β : Type} (l : List (String × β)) (s : String)
    (g : β → β) (p : String) :
    (l.map fun w => if w.1 = s then (w.1, g w.2) else w).lookup p
      = if p = s then (l.lookup p).map g else l.lookup p := by
  induction l with
  | nil => simp
  | cons w t ih =>
    obtain ⟨w1, w2⟩ := w
    by_cases hw : w1 = s
    · subst hw
      by_cases hp : p = w1
      · subst hp
        simp [List.lookup_cons]
      · have hb : (p == w1) = false := beq_eq_false_iff_ne.mpr hp
        simp [List.lookup_cons, hb, ih, hp]
    · by_cases hp : p = w1
      · subst hp
        have hps : p ≠ s := hw
        simp [List.lookup_cons, if_neg hw, hps]
      · have hb : (p == w1) = false := beq_eq_false_iff_ne.mpr hp
        simp [List.lookup_cons, if_neg hw, hb, ih, hp]

theorem lookup2_updEntry (ps : Params) (s a p q : String)
    (f : Entry → Entry) :
    lookup2 (updEntry ps s a f) p q =
      if p = s ∧ q = a then (lookup2 ps p q).map f else lookup2 ps p q := by
  unfold lookup2 updEntry
  rw [lookup_map_if]
  by_cases hp : p = s
  · rw [if_pos hp]
    cases hl : ps.lookup p with
    | none => simp [hp, hl]
    | some args =>
      dsimp only [Option.map]
      rw [lookup_map_if]
      by_cases hq : q = a
      · simp only [hp, hq, and_self, if_true, if_pos rfl]
        cases List.lookup a args <;> rfl
      · simp [hp, hq]
  · simp [hp]

theorem skel_updEntry (ps : Params) (s a : String) (f : Entry → Entry)
    (hf : ∀ e, stableOf (f e) = stableOf e) :
    skel (updEntry ps s a f) = skel ps := by
  unfold skel updEntry
  rw [List.map_map]
  apply List.map_congr_left
  intro q _
  by_cases hq : q.1 = s
  · simp only [Function.comp, if_pos hq]
    rw [List.map_map]
    refine congrArg (fun l => (q.1, l)) ?_
    apply List.map_congr_left
    intro w _
    by_cases hw : w.1 = a
    · simp [if_pos hw, hf]
    · simp [if_neg hw]
  · simp [Function.comp, if_neg hq]

theorem lookup_stableOf_of_eq :
    ∀ (args args' : List (String × Entry)),
      args.map (fun w => (w.1, stableOf w.2))
        = args'.map (fun w => (w.1, stableOf w.2)) →
      ∀ a, (args.lookup a).map stableOf = (args'.lookup a).map stableOf
  | [], [], _, a => rfl
  | [], (w' :: t'), h, a => by simp at h
  | (w :: t), [], h, a => by simp at h
  | (w :: t), (w' :: t'), h, a => by
    simp only [List.map_cons, List.cons.injEq, Prod.mk.injEq] at h
    obtain ⟨⟨hk, hs⟩, ht⟩ := h
    by_cases ha : a = w.1
    · have hb : (a == w.1) = true := beq_iff_eq.mpr ha
      have hb' : (a == w'.1) = true := beq_iff_eq.mpr (hk ▸ ha)
      obtain ⟨w1, w2⟩ := w
      obtain ⟨w1', w2'⟩ := w'
      simp only [List.lookup_cons, hb, hb', Option.map_some]
      simpa using hs
    · have hb : (a == w.1) = false := beq_eq_false_iff_ne.mpr ha
      have hb' : (a == w'.1) = false := beq_eq_false_iff_ne.mpr (hk ▸ ha)
      obtain ⟨w1, w2⟩ := w
      obtain ⟨w1', w2'⟩ := w'
      simp only [List.lookup_cons, hb, hb']
      exact lookup_stableOf_of_eq t t' ht a

theorem lookup2_stableOf_of_skel :
    ∀ (ps ps' : Params), skel ps = skel ps' →
      ∀ s a, (lookup2 ps s a).map stableOf = (lookup2 ps' s a).map stableOf
  | [], [], _, s, a => rfl
  | [], (q' :: t'), h, s, a => by simp [skel] at h
  | (q :: t), [], h, s, a => by simp [skel] at h
  | (q :: t), (q' :: t'), h, s, a => by
    simp only [skel, List.map_cons, List.cons.injEq, Prod.mk.injEq] at h
    obtain ⟨⟨hk, hs⟩, ht⟩ := h
    unfold lookup2
    by_cases hsq : s = q.1
    · have hb : (s == q.1) = true := beq_iff_eq.mpr hsq
      have hb' : (s == q'.1) = true := beq_iff_eq.mpr (hk ▸ hsq)
      obtain ⟨q1, q2⟩ := q
      obtain ⟨q1', q2'⟩ := q'
      simp only [List.lookup_cons, hb, hb']
      exact lookup_stableOf_of_eq q2 q2' hs a
    · have hb : (s == q.1) = false := beq_eq_false_iff_ne.mpr hsq
      have hb' : (s == q'.1) = false := beq_eq_false_iff_ne.mpr (hk ▸ hsq)
      obtain ⟨q1, q2⟩ := q
      obtain ⟨q1', q2'⟩ := q'
      simp only [List.lookup_cons, hb, hb']
      have := lookup2_stableOf_of_skel t t' (by simpa [skel] using ht) s a
      simpa [lookup2] using this

theorem rowAt_of_skel (ps ps' : Params) (h : skel ps = skel ps')
    (s a : String) : rowAt ps s a = rowAt ps' s a := by
  have hst := lookup2_stableOf_of_skel ps ps' h s a
  unfold rowAt
  cases h1 : lookup2 ps s a with
  | none =>
    cases h2 : lookup2 ps' s a with
    | none => rfl
    | some e' => rw [h1, h2] at hst; simp at hst
  | some e =>
    cases h2 : lookup2 ps' s a with
    | none => rw [h1, h2] at hst; simp at hst
    | some e' =>
      rw [h1, h2] at hst
      simp [stableOf, Prod.mk.injEq] at hst
      obtain ⟨hu, _, _, _, _, hr⟩ := hst
      dsimp only
      rw [hu, hr]

theorem WFlen_updEntry (ps : Params) (s a : String) (f : Entry → Entry)
    (hf : ∀ e, (f e).use = e.use ∧ (f e).row.length = e.row.length ∧
      (f e).id.length = e.id.length ∧ (f e).fitted.length = e.fitted.length ∧
      (f e).error.length = e.error.length)
    (h : WFlen ps) : WFlen (updEntry ps s a f) := by
  intro q hq w hw
  simp only [updEntry, List.mem_map] at hq
  obtain ⟨q0, hq0, hqeq⟩ := hq
  by_cases hk : q0.1 = s
  · rw [if_pos hk] at hqeq
    subst hqeq
    dsimp only at hw
    simp only [List.mem_map] at hw
    obtain ⟨w0, hw0, hweq⟩ := hw
    by_cases hka : w0.1 = a
    · rw [if_pos hka] at hweq
      subst hweq
      have h0 := h q0 hq0 w0 hw0
      have hfe := hf w0.2
      exact ⟨by rw [hfe.2.1, hfe.1]; exact h0.1,
             by rw [hfe.2.2.1, hfe.1]; exact h0.2.1,
             by rw [hfe.2.2.2.1, hfe.1]; exact h0.2.2.1,
             by rw [hfe.2.2.2.2, hfe.1]; exact h0.2.2.2⟩
    · rw [if_neg hka] at hweq
      subst hweq
      exact h q0 hq0 w0 hw0
  · rw [if_neg hk] at hqeq
    subst hqeq
    exact h q0 hq0 w hw

theorem processArg_ok_shape (fuel : Nat) (s a : String) (st st' : St)
    (f : String) (h : processArg fuel s a st = .ok (st', f)) :
    (∃ R, rowAt st.params s a = some R ∧
      ∃ Δ, st'.writes = st.writes ++ Δ ∧
        ∀ w ∈ Δ, ∃ c v, w = .cell (R + 2) c v) ∧
    skel st'.params = skel st.params ∧
    (∀ p q, ¬(p = s ∧ q = a) → lookup2 st'.params p q = lookup2 st.params p q) ∧
    st'.frags = st.frags ∧
    (WFlen st.params → WFlen st'.params) := by
  unfold processArg at h
  split at h
  · exact absurd h (by simp)
  · rename_i entry hlk
    split at h
    · exact absurd h (by simp)
    · rename_i to_use hfy
      dsimp only at h
      split at h
      · split at h
        · exact absurd h (by simp)
        · split at h
          · exact absurd h (by simp)
          · split at h
            · exact absurd h (by simp)
            · exact absurd h (by simp)
            · rename_i s2f a2f tulf vary2f hloop
              split at h
              · split at h
                · exact absurd h (by simp)
                · rename_i e2 hlk2
                  simp only [Res.ok.injEq, Prod.mk.injEq] at h
                  obtain ⟨h1, h2⟩ := h
                  subst h1
                  dsimp only
                  refine ⟨⟨entry.row.getD to_use 0,
                    by simp [rowAt, hlk, hfy], ?_⟩, rfl,
                    fun p q hpq => rfl, rfl, fun hw => hw⟩
                  refine ⟨_, rfl, ?_⟩
                  intro w hw
                  simp only [List.mem_cons, List.not_mem_nil, or_false] at hw
                  rcases hw with rfl | rfl | rfl | rfl <;> exact ⟨_, _, rfl⟩
              · split at h
                · rename_i x_temp hfound
                  simp only [Res.ok.injEq, Prod.mk.injEq] at h
                  obtain ⟨h1, h2⟩ := h
                  subst h1
                  dsimp only
                  refine ⟨⟨entry.row.getD to_use 0,
                    by simp [rowAt, hlk, hfy], ?_⟩, ?_, ?_, rfl, ?_⟩
                  · refine ⟨_, rfl, ?_⟩
                    intro w hw
                    simp only [List.mem_cons, List.not_mem_nil, or_false] at hw
                    rcases hw with rfl <;> exact ⟨_, _, rfl⟩
                  · exact skel_updEntry _ _ _ _ (fun e => by simp [stableOf])
                  · intro p q hpq
                    rw [lookup2_updEntry]
                    exact if_neg hpq
                  · exact WFlen_updEntry _ _ _ _
                      (fun e => ⟨rfl, rfl, by simp, rfl, rfl⟩)
                · rename_i hfound
                  simp only [Res.ok.injEq, Prod.mk.injEq] at h
                  obtain ⟨h1, h2⟩ := h
                  subst h1
                  dsimp only
                  refine ⟨⟨entry.row.getD to_use 0,
                    by simp [rowAt, hlk, hfy], ?_⟩, ?_, ?_, rfl, ?_⟩
                  · refine ⟨_, rfl, ?_⟩
                    intro w hw
                    simp only [List.mem_cons, List.not_mem_nil, or_false] at hw
                    rcases hw with rfl <;> exact ⟨_, _, rfl⟩
                  · exact skel_updEntry _ _ _ _ (fun e => by simp [stableOf])
                  · intro p q hpq
                    rw [lookup2_updEntry]
                    exact if_neg hpq
                  · exact WFlen_updEntry _ _ _ _
                      (fun e => ⟨rfl, rfl, by simp, rfl, rfl⟩)
      · split at h
        · simp only [Res.ok.injEq, Prod.mk.injEq] at h
          obtain ⟨h1, h2⟩ := h
          subst h1
          dsimp only
          refine ⟨⟨entry.row.getD to_use 0,
            by simp [rowAt, hlk, hfy], ?_⟩, ?_, ?_, rfl, ?_⟩
          · refine ⟨_, rfl, ?_⟩
            intro w hw
            simp only [List.mem_cons, List.not_mem_nil, or_false] at hw
            rcases hw with rfl | rfl | rfl <;> exact ⟨_, _, rfl⟩
          · exact skel_updEntry _ _ _ _ (fun e => by simp [stableOf])
          · intro p q hpq
            rw [lookup2_updEntry]
            exact if_neg hpq
          · exact WFlen_updEntry _ _ _ _
              (fun e => ⟨rfl, rfl, by simp, by simp, by simp⟩)
        · split at h
          · rename_i x_temp hfound
            simp only [Res.ok.injEq, Prod.mk.injEq] at h
            obtain ⟨h1, h2⟩ := h
            subst h1
            dsimp only
            refine ⟨⟨entry.row.getD to_use 0,
              by simp [rowAt, hlk, hfy], ?_⟩, ?_, ?_, rfl, ?_⟩
            · refine ⟨_, rfl, ?_⟩
              intro w hw
              simp only [List.mem_cons, List.not_mem_nil, or_false] at hw
              rcases hw with rfl <;> exact ⟨_, _, rfl⟩
            · exact skel_updEntry _ _ _ _ (fun e => by simp [stableOf])
            · intro p q hpq
              rw [lookup2_updEntry]
              exact if_neg hpq
            · exact WFlen_updEntry _ _ _ _
                (fun e => ⟨rfl, rfl, by simp, rfl, rfl⟩)
          · rename_i hfound
            simp only [Res.ok.injEq, Prod.mk.injEq] at h
            obtain ⟨h1, h2⟩ := h
            subst h1
            dsimp only
            refine ⟨⟨entry.row.getD to_use 0,
              by simp [rowAt, hlk, hfy], ?_⟩, ?_, ?_, rfl, ?_⟩
            · refine ⟨_, rfl, ?_⟩
              intro w hw
              simp only [List.mem_cons, List.not_mem_nil, or_false] at hw
              rcases hw with rfl <;> exact ⟨_, _, rfl⟩
            · exact skel_updEntry _ _ _ _ (fun e => by simp [stableOf])
            · intro p q hpq
              rw [lookup2_updEntry]
              exact if_neg hpq
            · exact WFlen_updEntry _ _ _ _
                (fun e => ⟨rfl, rfl, by simp, rfl, rfl⟩)

theorem firstY_lt_length (l : List Cell) (i : Nat)
    (h : firstY l = some i) : i < l.length :=
  (List.findIdx?_eq_some_iff_findIdx_eq.mp h).1

theorem lookup_mem {β : Type} :
    ∀ (l : List (String × β)) (k : String) (v : β),
      l.lookup k = some v → (k, v) ∈ l := by
  intro l
  induction l with
  | nil => intro k v h; simp [List.lookup] at h
  | cons w t ih =>
    intro k v h
    obtain ⟨w1, w2⟩ := w
    rw [List.lookup_cons] at h
    by_cases hk : k == w1
    · rw [hk] at h
      dsimp only at h
      injection h with h
      subst h
      simp only [beq_iff_eq] at hk
      subst hk
      exact List.mem_cons_self _ _
    · rw [Bool.not_eq_true] at hk
      rw [hk] at h
      dsimp only at h
      exact List.mem_cons_of_mem _ (ih k v h)

theorem any_use_of_lookup (args : List (String × Entry)) (a : String)
    (e : Entry) (h : args.lookup a = some e) (hy : Cell.s "y" ∈ e.use) :
    (args.any fun q => q.2.use.any (fun c => c = Cell.s "y")) = true := by
  have hmem := lookup_mem args a e h
  rw [List.any_eq_true]
  refine ⟨(a, e), hmem, ?_⟩
  rw [List.any_eq_true]
  exact ⟨Cell.s "y", hy, by simp⟩

theorem isActive_of_lookup2 (ps : Params) (s a : String) (e : Entry)
    (h : lookup2 ps s a = some e) (hy : Cell.s "y" ∈ e.use) :
    isActive ps s = true := by
  unfold lookup2 at h
  unfold isActive
  cases hl : ps.lookup s with
  | none => rw [hl] at h; simp at h
  | some args =>
    rw [hl] at h
    dsimp only at h
    exact any_use_of_lookup args a e h hy

theorem lookup2_row_mem (ps : Params) (s a : String) (e : Entry)
    (h : lookup2 ps s a = some e) :
    ∀ x ∈ e.row, x ∈ (rowLists ps).flatten := by
  intro x hx
  unfold lookup2 at h
  cases hl : ps.lookup s with
  | none => rw [hl] at h; simp at h
  | some args =>
    rw [hl] at h
    have h1 : (s, args) ∈ ps := lookup_mem ps s args hl
    have h2 : (a, e) ∈ args := lookup_mem args a e h
    rw [List.mem_flatten]
    refine ⟨e.row, ?_, hx⟩
    unfold rowLists
    rw [List.mem_flatMap]
    exact ⟨(s, args), h1, List.mem_map.mpr ⟨(a, e), h2, rfl⟩⟩

theorem rows_disjoint_inner :
    ∀ (args : List (String × Entry)) (a a' : String) (e e' : Entry),
      ((args.map (fun w => w.2.row)).flatten).Nodup →
      args.lookup a = some e → args.lookup a' = some e' → a ≠ a' →
      ∀ x ∈ e.row, x ∉ e'.row := by
  intro args
  induction args with
  | nil => intro a a' e e' hnd h1 h2 hne; simp [List.lookup] at h1
  | cons w t ih =>
    intro a a' e e' hnd h1 h2 hne
    obtain ⟨w1, w2⟩ := w
    simp only [List.map_cons, List.flatten_cons] at hnd
    have hdisj := List.disjoint_of_nodup_append hnd
    have hndr := hnd.of_append_right
    rw [List.lookup_cons] at h1 h2
    by_cases ha : a = w1
    · have hb : (a == w1) = true := beq_iff_eq.mpr ha
      rw [hb] at h1
      dsimp only at h1
      injection h1 with h1
      subst h1
      have ha' : (a' == w1) = false :=
        beq_eq_false_iff_ne.mpr (fun hc => hne (ha.trans hc.symm))
      rw [ha'] at h2
      dsimp only at h2
      intro x hx hx'
      have : x ∈ (t.map (fun w => w.2.row)).flatten :=
        List.mem_flatten.mpr ⟨e'.row,
          List.mem_map.mpr ⟨(a', e'), lookup_mem t a' e' h2, rfl⟩, hx'⟩
      exact hdisj hx this
    · have hb : (a == w1) = false := beq_eq_false_iff_ne.mpr ha
      rw [hb] at h1
      dsimp only at h1
      by_cases ha' : a' = w1
      · have hb' : (a' == w1) = true := beq_iff_eq.mpr ha'
        rw [hb'] at h2
        dsimp only at h2
        injection h2 with h2
        subst h2
        intro x hx hx'
        have : x ∈ (t.map (fun w => w.2.row)).flatten :=
          List.mem_flatten.mpr ⟨e.row,
            List.mem_map.mpr ⟨(a, e), lookup_mem t a e h1, rfl⟩, hx⟩
        exact hdisj hx' this
      · have hb' : (a' == w1) = false := beq_eq_false_iff_ne.mpr ha'
        rw [hb'] at h2
        dsimp only at h2
        exact ih a a' e e' hndr h1 h2 hne

theorem rows_disjoint :
    ∀ (ps : Params), RowsNodup ps →
      ∀ (s a s' a' : String) (e e' : Entry),
        lookup2 ps s a = some e → lookup2 ps s' a' = some e' →
        ¬(s = s' ∧ a = a') → ∀ x ∈ e.row, x ∉ e'.row := by
  intro ps
  induction ps with
  | nil => intro _ s a s' a' e e' h1; simp [lookup2, List.lookup] at h1
  | cons q t ih =>
    intro hnd s a s' a' e e' h1 h2 hne
    obtain ⟨q1, q2⟩ := q
    unfold RowsNodup rowLists at hnd
    simp only [List.flatMap_cons, List.flatten_append] at hnd
    have hdisj := List.disjoint_of_nodup_append hnd
    have hndl := hnd.of_append_left
    have hndr : RowsNodup t := hnd.of_append_right
    unfold lookup2 at h1 h2
    rw [List.lookup_cons] at h1 h2
    by_cases hs : s = q1
    · have hb : (s == q1) = true := beq_iff_eq.mpr hs
      rw [hb] at h1
      dsimp only at h1
      by_cases hs' : s' = q1
      · have hb' : (s' == q1) = true := beq_iff_eq.mpr hs'
        rw [hb'] at h2
        dsimp only at h2
        have hnea : a ≠ a' := fun hc => hne ⟨hs.trans hs'.symm, hc⟩
        exact rows_disjoint_inner q2 a a' e e' hndl h1 h2 hnea
      · have hb' : (s' == q1) = false := beq_eq_false_iff_ne.mpr hs'
        rw [hb'] at h2
        dsimp only at h2
        intro x hx hx'
        have hxl : x ∈ (q2.map (fun w => w.2.row)).flatten :=
          List.mem_flatten.mpr ⟨e.row,
            List.mem_map.mpr ⟨(a, e), lookup_mem q2 a e h1, rfl⟩, hx⟩
        have hxr : x ∈ (rowLists t).flatten :=
          lookup2_row_mem t s' a' e' (by simpa [lookup2] using h2) x hx'
        exact hdisj hxl hxr
    · have hb : (s == q1) = false := beq_eq_false_iff_ne.mpr hs
      rw [hb] at h1
      dsimp only at h1
      by_cases hs' : s' = q1
      · have hb' : (s' == q1) = true := beq_iff_eq.mpr hs'
        rw [hb'] at h2
        dsimp only at h2
        intro x hx hx'
        have hxl : x ∈ (q2.map (fun w => w.2.row)).flatten :=
          List.mem_flatten.mpr ⟨e'.row,
            List.mem_map.mpr ⟨(a', e'), lookup_mem q2 a' e' h2, rfl⟩, hx'⟩
        have hxr : x ∈ (rowLists t).flatten :=
          lookup2_row_mem t s a e (by simpa [lookup2] using h1) x hx
        exact hdisj hxl hxr
      · have hb' : (s' == q1) = false := beq_eq_false_iff_ne.mpr hs'
        rw [hb'] at h2
        dsimp only at h2
        exact ih hndr s a s' a' e e' (by simpa [lookup2] using h1)
          (by simpa [lookup2] using h2) hne

theorem processArg_fixed (fuel : Nat) (s a : String) (st : St) (e : Entry)
    (tu : Nat) (h1 : lookup2 st.params s a = some e)
    (h2 : firstY e.use = some tu)
    (h3 : e.vary.getD tu (Cell.s "") = Cell.s "n") :
    processArg fuel s a st = .ok
      ({ st with
          model_string := st.model_string ++
            (Cell.render (e.guess.getD tu (Cell.s "")) ++ ", "),
          writes := st.writes ++
            [.cell (e.row.getD tu 0 + 2) .idC (Cell.s "-"),
             .cell (e.row.getD tu 0 + 2) .fittedC (e.guess.getD tu (Cell.s "")),
             .cell (e.row.getD tu 0 + 2) .errorC (Cell.n 0)],
          params := updEntry st.params s a fun e2 =>
            { e2 with id := e2.id.set tu (Cell.s "-"),
                      fitted := e2.fitted.set tu (e.guess.getD tu (Cell.s "")),
                      error := e2.error.set tu (Cell.n 0) } },
        Cell.render (e.guess.getD tu (Cell.s "")) ++ ", ") := by
  unfold processArg
  rw [h1]
  dsimp only
  rw [h2]
  dsimp only
  rw [h3]
  simp

theorem applyWrites_append (store : Store) (ws1 ws2 : List Write) :
    applyWrites store (ws1 ++ ws2) = applyWrites (applyWrites store ws1) ws2 :=
  List.foldl_append ..

theorem applyWrites_notouch (store : Store) (R : Nat) (c : Col) :
    ∀ (ws : List Write),
      (∀ w ∈ ws, ∃ r col v, w = .cell r col v ∧ r ≠ R) →
      applyWrites store ws R c = store R c := by
  intro ws
  induction ws generalizing store with
  | nil => intro _; rfl
  | cons w t ih =>
    intro h
    obtain ⟨r, col, v, hw, hr⟩ := h w (List.mem_cons_self _ _)
    subst hw
    show applyWrites (applyWrite store (.cell r col v)) t R c = store R c
    rw [ih _ (fun w hw => h w (List.mem_cons_of_mem _ hw))]
    show (if R = r ∧ c = col then v else store R c) = store R c
    exact if_neg (fun hc => hr hc.1.symm)

theorem applyWrites_fixed_block (store : Store) (R : Nat) (v : Cell) :
    applyWrites store
        [.cell R .idC (Cell.s "-"), .cell R .fittedC v,
         .cell R .errorC (Cell.n 0)] R Col.idC = Cell.s "-" ∧
    applyWrites store
        [.cell R .idC (Cell.s "-"), .cell R .fittedC v,
         .cell R .errorC (Cell.n 0)] R Col.fittedC = v ∧
    applyWrites store
        [.cell R .idC (Cell.s "-"), .cell R .fittedC v,
         .cell R .errorC (Cell.n 0)] R Col.errorC = Cell.n 0 := by
  refine ⟨?_, ?_, ?_⟩ <;> simp [applyWrites, applyWrite]

theorem processArgs_ok_shape (fuel : Nat) (s : String) :
    ∀ (as : List String) (st st' : St) (fs : List String),
      processArgs fuel s as st = .ok (st', fs) →
      (∃ Δ, st'.writes = st.writes ++ Δ ∧
        ∀ w ∈ Δ, ∃ a' ∈ as, ∃ R, rowAt st.params s a' = some R ∧
          ∃ c v, w = .cell (R + 2) c v) ∧
      skel st'.params = skel st.params ∧
      (∀ p q, (p ≠ s ∨ q ∉ as) →
        lookup2 st'.params p q = lookup2 st.params p q) ∧
      st'.frags = st.frags ∧
      (WFlen st.params → WFlen st'.params) ∧
      fs.length = as.length
  | [], st, st', fs, h => by
    unfold processArgs at h
    simp only [Res.ok.injEq, Prod.mk.injEq] at h
    obtain ⟨h1, h2⟩ := h
    subst h1
    subst h2
    exact ⟨⟨[], by simp, by simp⟩, rfl, fun p q _ => rfl, rfl,
      fun h => h, rfl⟩
  | a :: rest, st, st', fs, h => by
    unfold processArgs at h
    cases hpa : processArg fuel s a st with
    | err e w => rw [hpa] at h; exact absurd h (by simp)
    | hang => rw [hpa] at h; exact absurd h (by simp)
    | ok q =>
      rw [hpa] at h
      obtain ⟨st1, f0⟩ := q
      dsimp only at h
      cases hrest : processArgs fuel s rest st1 with
      | err e w => rw [hrest] at h; exact absurd h (by simp)
      | hang => rw [hrest] at h; exact absurd h (by simp)
      | ok q2 =>
        rw [hrest] at h
        obtain ⟨st2, fs2⟩ := q2
        dsimp only at h
        simp only [Res.ok.injEq, Prod.mk.injEq] at h
        obtain ⟨h1, h2⟩ := h
        subst h1
        subst h2
        obtain ⟨⟨R, hR, Δ0, hw0, hloc0⟩, hskel0, hlk0, hfr0, hwf0⟩ :=
          processArg_ok_shape fuel s a st st1 f0 hpa
        obtain ⟨⟨Δ1, hw1, hloc1⟩, hskel1, hlk1, hfr1, hwf1, hlen1⟩ :=
          processArgs_ok_shape fuel s rest st1 st2 fs2 hrest
        refine ⟨⟨Δ0 ++ Δ1, by rw [hw1, hw0, List.append_assoc], ?_⟩,
          hskel1.trans hskel0, ?_, hfr1.trans hfr0,
          fun h => hwf1 (hwf0 h), by simp [hlen1]⟩
        · intro w hw
          rcases List.mem_append.mp hw with hw | hw
          · obtain ⟨c, v, hcv⟩ := hloc0 w hw
            exact ⟨a, List.mem_cons_self _ _, R, hR, c, v, hcv⟩
          · obtain ⟨a', ha', R', hR', c, v, hcv⟩ := hloc1 w hw
            refine ⟨a', List.mem_cons_of_mem _ ha', R', ?_, c, v, hcv⟩
            rw [← rowAt_of_skel _ _ hskel0 s a']
            exact hR'
        · intro p q hpq
          have hpq0 : ¬(p = s ∧ q = a) := by
            rcases hpq with h | h
            · exact fun hc => h hc.1
            · exact fun hc => h (hc.2 ▸ List.mem_cons_self _ _)
          have hpq1 : p ≠ s ∨ q ∉ rest := by
            rcases hpq with h | h
            · exact Or.inl h
            · exact Or.inr (fun hm => h (List.mem_cons_of_mem _ hm))
          rw [hlk1 p q hpq1, hlk0 p q hpq0]

theorem getD_set_self (l : List Cell) (i : Nat) (v : Cell)
    (h : i < l.length) : (l.set i v).getD i (Cell.s "") = v := by
  rw [List.getD_eq_getElem _ _ (by simpa using h)]
  simp [List.getElem_set_self]

theorem processArgs_target (fuel : Nat) (s arg : String) (e : Entry)
    (tu : Nat) :
    ∀ (as1 as2 : List String) (st st' : St) (fs : List String),
      processArgs fuel s (as1 ++ arg :: as2) st = .ok (st', fs) →
      lookup2 st.params s arg = some e →
      firstY e.use = some tu →
      e.vary.getD tu (Cell.s "") = Cell.s "n" →
      arg ∉ as1 → arg ∉ as2 →
      (∀ a' R', a' ≠ arg → rowAt st.params s a' = some R' →
        R' ≠ e.row.getD tu 0) →
      WFlen st.params →
      (∀ store,
        applyWrites store st'.writes (e.row.getD tu 0 + 2) Col.idC
          = Cell.s "-" ∧
        applyWrites store st'.writes (e.row.getD tu 0 + 2) Col.fittedC
          = e.guess.getD tu (Cell.s "") ∧
        applyWrites store st'.writes (e.row.getD tu 0 + 2) Col.errorC
          = Cell.n 0) ∧
      fs.getD as1.length "" =
        Cell.render (e.guess.getD tu (Cell.s "")) ++ ", " ∧
      recordedId st'.params s arg = some (Cell.s "-") ∧
      cellAt Entry.fitted st'.params s arg
        = some (e.guess.getD tu (Cell.s "")) ∧
      cellAt Entry.error st'.params s arg = some (Cell.n 0) ∧
      skel st'.params = skel st.params ∧
      st'.frags = st.frags ∧
      (∀ p q, p ≠ s → lookup2 st'.params p q = lookup2 st.params p q)
  | [], as2, st, st', fs, h, h1, h2, h3, hn1, hn2, hrow, hwf => by
    unfold processArgs at h
    rw [List.nil_append] at h
    dsimp only at h
    rw [processArg_fixed fuel s arg st e tu h1 h2 h3] at h
    dsimp only at h
    cases hrest : processArgs fuel s as2
        { st with
          model_string := st.model_string ++
            (Cell.render (e.guess.getD tu (Cell.s "")) ++ ", "),
          writes := st.writes ++
            [.cell (e.row.getD tu 0 + 2) .idC (Cell.s "-"),
             .cell (e.row.getD tu 0 + 2) .fittedC (e.guess.getD tu (Cell.s "")),
             .cell (e.row.getD tu 0 + 2) .errorC (Cell.n 0)],
          params := updEntry st.params s arg fun e2 =>
            { e2 with id := e2.id.set tu (Cell.s "-"),
                      fitted := e2.fitted.set tu (e.guess.getD tu (Cell.s "")),
                      error := e2.error.set tu (Cell.n 0) } } with
    | err e0 w => rw [hrest] at h; exact absurd h (by simp)
    | hang => rw [hrest] at h; exact absurd h (by simp)
    | ok q2 =>
      rw [hrest] at h
      obtain ⟨st2, fs2⟩ := q2
      dsimp only at h
      simp only [Res.ok.injEq, Prod.mk.injEq] at h
      obtain ⟨hst, hfs⟩ := h
      subst hst
      subst hfs
      have htu : tu < e.use.length := firstY_lt_length _ _ h2
      have hlene : e.id.length = e.use.length ∧
          e.fitted.length = e.use.length ∧ e.error.length = e.use.length := by
        unfold lookup2 at h1
        cases hl : st.params.lookup s with
        | none => rw [hl] at h1; simp at h1
        | some args =>
          rw [hl] at h1
          dsimp only at h1
          have hq := lookup_mem _ _ _ hl
          have hw := lookup_mem _ _ _ h1
          have := hwf _ hq _ hw
          exact ⟨this.2.1, this.2.2.1, this.2.2.2⟩
      obtain ⟨⟨Δ1, hw1, hloc1⟩, hskel1, hlk1, hfr1, hwf1, hlen1⟩ :=
        processArgs_ok_shape fuel s as2 _ st2 fs2 hrest
      have hskelF : skel (updEntry st.params s arg fun e2 =>
          { e2 with id := e2.id.set tu (Cell.s "-"),
                    fitted := e2.fitted.set tu (e.guess.getD tu (Cell.s "")),
                    error := e2.error.set tu (Cell.n 0) }) = skel st.params :=
        skel_updEntry _ _ _ _ (fun e2 => by simp [stableOf])
      have hlkF : lookup2 (updEntry st.params s arg fun e2 =>
          { e2 with id := e2.id.set tu (Cell.s "-"),
                    fitted := e2.fitted.set tu (e.guess.getD tu (Cell.s "")),
                    error := e2.error.set tu (Cell.n 0) }) s arg
          = some
            { e with
              id := e.id.set tu (Cell.s "-"),
              fitted := e.fitted.set tu (e.guess.getD tu (Cell.s "")),
              error := e.error.set tu (Cell.n 0) } := by
        rw [lookup2_updEntry, if_pos ⟨rfl, rfl⟩, h1]
        rfl
      have hlk2 : lookup2 st2.params s arg
          = some
            { e with
              id := e.id.set tu (Cell.s "-"),
              fitted := e.fitted.set tu (e.guess.getD tu (Cell.s "")),
              error := e.error.set tu (Cell.n 0) } := by
        rw [hlk1 s arg (Or.inr hn2)]
        exact hlkF
      have hnotouch : ∀ w ∈ Δ1, ∃ r col v, w = Write.cell r col v ∧
          r ≠ e.row.getD tu 0 + 2 := by
        intro w hw
        obtain ⟨a', ha', R', hR', c, v, hcv⟩ := hloc1 w hw
        refine ⟨R' + 2, c, v, hcv, ?_⟩
        have hane : a' ≠ arg := fun hc => hn2 (hc ▸ ha')
        have : rowAt st.params s a' = some R' := by
          rw [← rowAt_of_skel _ _ hskelF s a']
          dsimp only at hR'
          exact hR'
        have := hrow a' R' hane this
        omega
      refine ⟨?_, by simp, ?_, ?_, ?_, hskel1.trans hskelF, hfr1, ?_⟩
      · intro store
        rw [hw1]
        dsimp only
        rw [List.append_assoc, applyWrites_append, applyWrites_append]
        refine ⟨?_, ?_, ?_⟩
        · rw [applyWrites_notouch _ _ _ Δ1 hnotouch]
          exact (applyWrites_fixed_block _ _ _).1
        · rw [applyWrites_notouch _ _ _ Δ1 hnotouch]
          exact (applyWrites_fixed_block _ _ _).2.1
        · rw [applyWrites_notouch _ _ _ Δ1 hnotouch]
          exact (applyWrites_fixed_block _ _ _).2.2
      · unfold recordedId
        rw [hlk2]
        dsimp only
        rw [h2]
        dsimp only
        rw [getD_set_self _ _ _ (by rw [hlene.1]; exact htu)]
      · unfold cellAt
        rw [hlk2]
        dsimp only
        rw [h2]
        dsimp only
        rw [getD_set_self _ _ _ (by rw [hlene.2.1]; exact htu)]
      · unfold cellAt
        rw [hlk2]
        dsimp only
        rw [h2]
        dsimp only
        rw [getD_set_self _ _ _ (by rw [hlene.2.2]; exact htu)]
      · intro p q hps
        rw [hlk1 p q (Or.inl hps), lookup2_updEntry,
          if_neg (fun hc => hps hc.1)]
  | a0 :: as1', as2, st, st', fs, h, h1, h2, h3, hn1, hn2, hrow, hwf => by
    unfold processArgs at h
    rw [List.cons_append] at h
    dsimp only at h
    cases hpa : processArg fuel s a0 st with
    | err e0 w => rw [hpa] at h; exact absurd h (by simp)
    | hang => rw [hpa] at h; exact absurd h (by simp)
    | ok q =>
      rw [hpa] at h
      obtain ⟨st1, f0⟩ := q
      dsimp only at h
      cases hrest : processArgs fuel s (as1' ++ arg :: as2) st1 with
      | err e0 w => rw [hrest] at h; exact absurd h (by simp)
      | hang => rw [hrest] at h; exact absurd h (by simp)
      | ok q2 =>
        rw [hrest] at h
        obtain ⟨st2, fs2⟩ := q2
        dsimp only at h
        simp only [Res.ok.injEq, Prod.mk.injEq] at h
        obtain ⟨hst, hfs⟩ := h
        subst hst
        subst hfs
        have ha0 : a0 ≠ arg := fun hc => hn1 (hc ▸ List.mem_cons_self _ _)
        obtain ⟨⟨R0, hR0, Δ0, hw0, hloc0⟩, hskel0, hlk0, hfr0, hwf0⟩ :=
          processArg_ok_shape fuel s a0 st st1 f0 hpa
        have h1' : lookup2 st1.params s arg = some e := by
          rw [hlk0 s arg (fun hc => ha0 hc.2.symm)]
          exact h1
        have hrow' : ∀ a' R', a' ≠ arg → rowAt st1.params s a' = some R' →
            R' ≠ e.row.getD tu 0 := by
          intro a' R' hane hra
          refine hrow a' R' hane ?_
          rw [← rowAt_of_skel _ _ hskel0 s a']
          exact hra
        have ih := processArgs_target fuel s arg e tu as1' as2 st1 st2 fs2
          hrest h1' h2 h3 (fun hm => hn1 (List.mem_cons_of_mem _ hm)) hn2
          hrow' (hwf0 hwf)
        obtain ⟨ihw, ihf, ihid, ihfit, iherr, ihskel, ihfr, ihlk⟩ := ih
        refine ⟨ihw, by simpa using ihf, ihid, ihfit, iherr,
          ihskel.trans hskel0, ihfr.trans hfr0, ?_⟩
        intro p q hps
        rw [ihlk p q hps, hlk0 p q (fun hc => hps hc.1)]

theorem firstY_getD (l : List Cell) (i : Nat) (h : firstY l = some i) :
    l.getD i (Cell.s "") = Cell.s "y" := by
  obtain ⟨hlt, hidx⟩ := List.findIdx?_eq_some_iff_findIdx_eq.mp h
  rw [List.getD_eq_getElem _ _ hlt]
  have := @List.findIdx_getElem _ (fun c => decide (c = Cell.s "y")) l
    (by rw [hidx]; exact hlt)
  simp only [hidx] at this
  simpa using this

theorem firstY_mem (l : List Cell) (i : Nat) (h : firstY l = some i) :
    Cell.s "y" ∈ l := by
  have h1 := firstY_lt_length l i h
  have h2 := firstY_getD l i h
  rw [List.getD_eq_getElem _ _ h1] at h2
  rw [← h2]
  exact List.getElem_mem h1

theorem getD_mem (l : List Nat) (i : Nat) (h : i < l.length) :
    l.getD i 0 ∈ l := by
  rw [List.getD_eq_getElem _ _ h]
  exact List.getElem_mem h

theorem processSubmodel_ok_shape (fuel : Nat) (reg : Registry) (s' : String)
    (st st' : St) (h : processSubmodel fuel reg s' st = .ok st') :
    (∃ Δ, st'.writes = st.writes ++ Δ ∧
      ∀ w ∈ Δ, ∃ q R, rowAt st.params s' q = some R ∧
        ∃ c v, w = .cell (R + 2) c v) ∧
    skel st'.params = skel st.params ∧
    (∀ p q, p ≠ s' → lookup2 st'.params p q = lookup2 st.params p q) ∧
    (WFlen st.params → WFlen st'.params) ∧
    (∀ key fs, (key, fs) ∈ st.frags → (key, fs) ∈ st'.frags) := by
  unfold processSubmodel at h
  split at h
  · dsimp only at h
    split at h
    · exact absurd h (by simp)
    · rename_i args_expected hreg
      cases hargs : processArgs fuel s' args_expected.tail
          { st with model_string :=
              st.model_string ++ (pySplit s' '#').headD s' ++ "(x, " } with
      | err e0 w => rw [hargs] at h; exact absurd h (by simp)
      | hang => rw [hargs] at h; exact absurd h (by simp)
      | ok q2 =>
        rw [hargs] at h
        obtain ⟨st2, fs⟩ := q2
        dsimp only at h
        simp only [Res.ok.injEq] at h
        subst h
        obtain ⟨⟨Δ, hw, hloc⟩, hskel, hlk, hfr, hwf, _⟩ :=
          processArgs_ok_shape fuel s' args_expected.tail _ st2 fs hargs
        refine ⟨⟨Δ, hw, ?_⟩, hskel, fun p q hp => hlk p q (Or.inl hp),
          hwf, ?_⟩
        · intro w hwm
          obtain ⟨a', _, R, hR, c, v, hcv⟩ := hloc w hwm
          exact ⟨a', R, hR, c, v, hcv⟩
        · intro key fs0 hmem
          dsimp only
          rw [hfr]
          exact List.mem_append_left _ hmem
  · simp only [Res.ok.injEq] at h
    subst h
    exact ⟨⟨[], by simp, by simp⟩, rfl, fun p q _ => rfl, fun h => h,
      fun key fs h => h⟩

theorem processList_ok_shape (fuel : Nat) (reg : Registry) :
    ∀ (ks : List String) (st st' : St),
      processList fuel reg ks st = .ok st' →
      (∃ Δ, st'.writes = st.writes ++ Δ ∧
        ∀ w ∈ Δ, ∃ p ∈ ks, ∃ q R, rowAt st.params p q = some R ∧
          ∃ c v, w = .cell (R + 2) c v) ∧
      skel st'.params = skel st.params ∧
      (∀ p q, p ∉ ks → lookup2 st'.params p q = lookup2 st.params p q) ∧
      (WFlen st.params → WFlen st'.params) ∧
      (∀ key fs, (key, fs) ∈ st.frags → (key, fs) ∈ st'.frags)
  | [], st, st', h => by
    unfold processList at h
    simp only [Res.ok.injEq] at h
    subst h
    exact ⟨⟨[], by simp, by simp⟩, rfl, fun p q _ => rfl, fun h => h,
      fun key fs h => h⟩
  | k :: rest, st, st', h => by
    unfold processList at h
    cases hps : processSubmodel fuel reg k st with
    | err e0 w => rw [hps] at h; exact absurd h (by simp)
    | hang => rw [hps] at h; exact absurd h (by simp)
    | ok st1 =>
      rw [hps] at h
      dsimp only at h
      obtain ⟨⟨Δ0, hw0, hloc0⟩, hskel0, hlk0, hwf0, hfr0⟩ :=
        processSubmodel_ok_shape fuel reg k st st1 hps
      obtain ⟨⟨Δ1, hw1, hloc1⟩, hskel1, hlk1, hwf1, hfr1⟩ :=
        processList_ok_shape fuel reg rest st1 st' h
      refine ⟨⟨Δ0 ++ Δ1, by rw [hw1, hw0, List.append_assoc], ?_⟩,
        hskel1.trans hskel0, ?_, fun h => hwf1 (hwf0 h),
        fun key fs hm => hfr1 key fs (hfr0 key fs hm)⟩
      · intro w hw
        rcases List.mem_append.mp hw with hw | hw
        · obtain ⟨q, R, hR, c, v, hcv⟩ := hloc0 w hw
          exact ⟨k, List.mem_cons_self _ _, q, R, hR, c, v, hcv⟩
        · obtain ⟨p, hp, q, R, hR, c, v, hcv⟩ := hloc1 w hw
          refine ⟨p, List.mem_cons_of_mem _ hp, q, R, ?_, c, v, hcv⟩
          rw [← rowAt_of_skel _ _ hskel0 p q]
          exact hR
      · intro p q hp
        rw [hlk1 p q (fun hm => hp (List.mem_cons_of_mem _ hm)),
          hlk0 p q (fun hc => hp (hc ▸ List.mem_cons_self _ _))]

theorem processSubmodel_target (fuel : Nat) (reg : Registry)
    (s arg : String) (e : Entry) (tu : Nat) (st st' : St)
    (args_expected as1 as2 : List String)
    (h : processSubmodel fuel reg s st = .ok st')
    (h1 : lookup2 st.params s arg = some e)
    (h2 : firstY e.use = some tu)
    (h3 : e.vary.getD tu (Cell.s "") = Cell.s "n")
    (hreg : reg.lookup ((pySplit s '#').headD s) = some args_expected)
    (hsplit : args_expected.tail = as1 ++ arg :: as2)
    (hn1 : arg ∉ as1) (hn2 : arg ∉ as2)
    (hrow : ∀ a' R', a' ≠ arg → rowAt st.params s a' = some R' →
      R' ≠ e.row.getD tu 0)
    (hwf : WFlen st.params) :
    (∀ store,
      applyWrites store st'.writes (e.row.getD tu 0 + 2) Col.idC
        = Cell.s "-" ∧
      applyWrites store st'.writes (e.row.getD tu 0 + 2) Col.fittedC
        = e.guess.getD tu (Cell.s "") ∧
      applyWrites store st'.writes (e.row.getD tu 0 + 2) Col.errorC
        = Cell.n 0) ∧
    (∃ fs, (s, fs) ∈ st'.frags ∧
      fs.getD as1.length "" =
        Cell.render (e.guess.getD tu (Cell.s "")) ++ ", ") ∧
    recordedId st'.params s arg = some (Cell.s "-") ∧
    cellAt Entry.fitted st'.params s arg
      = some (e.guess.getD tu (Cell.s "")) ∧
    cellAt Entry.error st'.params s arg = some (Cell.n 0) ∧
    skel st'.params = skel st.params ∧
    (∀ p q, p ≠ s → lookup2 st'.params p q = lookup2 st.params p q) := by
  have hact : isActive st.params s = true :=
    isActive_of_lookup2 st.params s arg e h1 (firstY_mem e.use tu h2)
  unfold processSubmodel at h
  rw [if_pos hact] at h
  dsimp only at h
  rw [hreg] at h
  dsimp only at h
  rw [hsplit] at h
  cases hargs : processArgs fuel s (as1 ++ arg :: as2)
      { st with model_string :=
          st.model_string ++ (pySplit s '#').headD s ++ "(x, " } with
  | err e0 w => rw [hargs] at h; exact absurd h (by simp)
  | hang => rw [hargs] at h; exact absurd h (by simp)
  | ok q2 =>
    rw [hargs] at h
    obtain ⟨st2, fs⟩ := q2
    dsimp only at h
    simp only [Res.ok.injEq] at h
    subst h
    obtain ⟨ihw, ihf, ihid, ihfit, iherr, ihskel, ihfr, ihlk⟩ :=
      processArgs_target fuel s arg e tu as1 as2 _ st2 fs hargs h1 h2 h3
        hn1 hn2 hrow hwf
    exact ⟨ihw, ⟨fs, by
        dsimp only
        exact List.mem_append_right _ (List.mem_cons_self _ _), ihf⟩,
      ihid, ihfit, iherr, ihskel, fun p q hp => ihlk p q hp⟩

theorem processList_target (fuel : Nat) (reg : Registry) (s arg : String)
    (e : Entry) (tu : Nat) (args_expected as1 as2 : List String) :
    ∀ (ks1 ks2 : List String) (st st' : St),
      processList fuel reg (ks1 ++ s :: ks2) st = .ok st' →
      s ∉ ks1 → s ∉ ks2 →
      lookup2 st.params s arg = some e →
      firstY e.use = some tu →
      e.vary.getD tu (Cell.s "") = Cell.s "n" →
      reg.lookup ((pySplit s '#').headD s) = some args_expected →
      args_expected.tail = as1 ++ arg :: as2 →
      arg ∉ as1 → arg ∉ as2 →
      (∀ p q R', ¬(p = s ∧ q = arg) → rowAt st.params p q = some R' →
        R' ≠ e.row.getD tu 0) →
      WFlen st.params →
      (∀ store,
        applyWrites store st'.writes (e.row.getD tu 0 + 2) Col.idC
          = Cell.s "-" ∧
        applyWrites store st'.writes (e.row.getD tu 0 + 2) Col.fittedC
          = e.guess.getD tu (Cell.s "") ∧
        applyWrites store st'.writes (e.row.getD tu 0 + 2) Col.errorC
          = Cell.n 0) ∧
      (∃ fs, (s, fs) ∈ st'.frags ∧
        fs.getD as1.length "" =
          Cell.render (e.guess.getD tu (Cell.s "")) ++ ", ") ∧
      recordedId st'.params s arg = some (Cell.s "-") ∧
      cellAt Entry.fitted st'.params s arg
        = some (e.guess.getD tu (Cell.s "")) ∧
      cellAt Entry.error st'.params s arg = some (Cell.n 0)
  | [], ks2, st, st', h, hk1, hk2, h1, h2, h3, hreg, hsplit, hn1, hn2,
      hrow, hwf => by
    unfold processList at h
    rw [List.nil_append] at h
    dsimp only at h
    cases hps : processSubmodel fuel reg s st with
    | err e0 w => rw [hps] at h; exact absurd h (by simp)
    | hang => rw [hps] at h; exact absurd h (by simp)
    | ok st1 =>
      rw [hps] at h
      dsimp only at h
      obtain ⟨ihw, ihf, ihid, ihfit, iherr, ihskel, ihlk⟩ :=
        processSubmodel_target fuel reg s arg e tu st st1 args_expected
          as1 as2 hps h1 h2 h3 hreg hsplit hn1 hn2
          (fun a' R' ha hra => hrow s a' R' (fun hc => ha hc.2) hra) hwf
      obtain ⟨⟨Δ1, hw1, hloc1⟩, hskel1, hlk1, hwf1, hfr1⟩ :=
        processList_ok_shape fuel reg ks2 st1 st' h
      have hnotouch : ∀ w ∈ Δ1, ∃ r col v, w = Write.cell r col v ∧
          r ≠ e.row.getD tu 0 + 2 := by
        intro w hw
        obtain ⟨p, hp, q, R, hR, c, v, hcv⟩ := hloc1 w hw
        refine ⟨R + 2, c, v, hcv, ?_⟩
        have hps' : ¬(p = s ∧ q = arg) :=
          fun hc => hk2 (hc.1 ▸ hp)
        have : rowAt st.params p q = some R := by
          rw [← rowAt_of_skel _ _ ihskel p q]
          exact hR
        have := hrow p q R hps' this
        omega
      refine ⟨?_, ?_, ?_, ?_, ?_⟩
      · intro store
        rw [hw1, applyWrites_append]
        refine ⟨?_, ?_, ?_⟩
        · rw [applyWrites_notouch _ _ _ Δ1 hnotouch]
          exact (ihw store).1
        · rw [applyWrites_notouch _ _ _ Δ1 hnotouch]
          exact (ihw store).2.1
        · rw [applyWrites_notouch _ _ _ Δ1 hnotouch]
          exact (ihw store).2.2
      · obtain ⟨fs, hmem, hval⟩ := ihf
        exact ⟨fs, hfr1 s fs hmem, hval⟩
      · unfold recordedId at ihid ⊢
        rw [hlk1 s arg hk2]
        exact ihid
      · unfold cellAt at ihfit ⊢
        rw [hlk1 s arg hk2]
        exact ihfit
      · unfold cellAt at iherr ⊢
        rw [hlk1 s arg hk2]
        exact iherr
  | k0 :: ks1', ks2, st, st', h, hk1, hk2, h1, h2, h3, hreg, hsplit, hn1,
      hn2, hrow, hwf => by
    unfold processList at h
    rw [List.cons_append] at h
    dsimp only at h
    cases hps : processSubmodel fuel reg k0 st with
    | err e0 w => rw [hps] at h; exact absurd h (by simp)
    | hang => rw [hps] at h; exact absurd h (by simp)
    | ok st1 =>
      rw [hps] at h
      dsimp only at h
      have hk0 : k0 ≠ s := fun hc => hk1 (hc ▸ List.mem_cons_self _ _)
      obtain ⟨⟨Δ0, hw0, hloc0⟩, hskel0, hlk0, hwf0, hfr0⟩ :=
        processSubmodel_ok_shape fuel reg k0 st st1 hps
      have h1' : lookup2 st1.params s arg = some e := by
        rw [hlk0 s arg (fun hc => hk0 hc.symm)]
        exact h1
      have hrow' : ∀ p q R', ¬(p = s ∧ q = arg) →
          rowAt st1.params p q = some R' → R' ≠ e.row.getD tu 0 := by
        intro p q R' hpq hra
        refine hrow p q R' hpq ?_
        rw [← rowAt_of_skel _ _ hskel0 p q]
        exact hra
      exact processList_target fuel reg s arg e tu args_expected as1 as2
        ks1' ks2 st1 st' h (fun hm => hk1 (List.mem_cons_of_mem _ hm)) hk2
        h1' h2 h3 hreg hsplit hn1 hn2 hrow' (hwf0 hwf)

theorem finalize_ok_fields (reg : Registry) (st : St) (r : Result)
    (h : finalize reg st = .ok r) :
    r.writes = st.writes ∧ r.params = st.params ∧ r.frags = st.frags := by
  unfold finalize at h
  dsimp only at h
  split at h
  · exact absurd h (by simp)
  · split at h
    · exact absurd h (by simp)
    · simp only [Res.ok.injEq] at h
      subst h
      exact ⟨rfl, rfl, rfl⟩

theorem WFlen_entry (ps : Params) (hwf : WFlen ps) (s a : String) (e : Entry)
    (h : lookup2 ps s a = some e) :
    e.row.length = e.use.length ∧ e.id.length = e.use.length ∧
    e.fitted.length = e.use.length ∧ e.error.length = e.use.length := by
  unfold lookup2 at h
  cases hl : ps.lookup s with
  | none => rw [hl] at h; simp at h
  | some args =>
    rw [hl] at h
    dsimp only at h
    exact hwf _ (lookup_mem _ _ _ hl) _ (lookup_mem _ _ _ h)

/-- C5: for every successful rebuild on a well-formed table (distinct
sheet-row numbers, data-model length invariant), every argument of an
active submodel whose selected use-case has `vary = 'n'` ends with: the
final store value of its row's fitted cell equal to its guess, its
error cell exactly `0`, its id cell (and recorded id) `'-'`, its
parameter-mapping fitted/error slots set to guess/`0`, and the rendered
guess appearing as the literal fragment at that argument's position of
its submodel's argument list in the composite expression. -/
theorem C5_fixed_parameter_writeback (fuel : Nat) (reg : Registry)
    (ps : Params) (r : Result) (submodel arg : String) (e : Entry)
    (tu : Nat) (args_expected as1 as2 ks1 ks2 : List String)
    (h : update_model fuel reg ps = Res.ok r)
    (hks : ps.map Prod.fst = ks1 ++ submodel :: ks2)
    (hks1 : submodel ∉ ks1) (hks2 : submodel ∉ ks2)
    (h1 : lookup2 ps submodel arg = some e)
    (h2 : firstY e.use = some tu)
    (h3 : e.vary.getD tu (Cell.s "") = Cell.s "n")
    (hreg : reg.lookup ((pySplit submodel '#').headD submodel)
      = some args_expected)
    (hsplit : args_expected.tail = as1 ++ arg :: as2)
    (hn1 : arg ∉ as1) (hn2 : arg ∉ as2)
    (hrnd : RowsNodup ps) (hwf : WFlen ps) :
    (∀ store,
      applyWrites store r.writes (e.row.getD tu 0 + 2) Col.idC
        = Cell.s "-" ∧
      applyWrites store r.writes (e.row.getD tu 0 + 2) Col.fittedC
        = e.guess.getD tu (Cell.s "") ∧
      applyWrites store r.writes (e.row.getD tu 0 + 2) Col.errorC
        = Cell.n 0) ∧
    (∃ fs, (submodel, fs) ∈ r.frags ∧
      fs.getD as1.length "" =
        Cell.render (e.guess.getD tu (Cell.s "")) ++ ", ") ∧
    recordedId r.params submodel arg = some (Cell.s "-") ∧
    cellAt Entry.fitted r.params submodel arg
      = some (e.guess.getD tu (Cell.s "")) ∧
    cellAt Entry.error r.params submodel arg = some (Cell.n 0) := by
  have htu := firstY_lt_length e.use tu h2
  have hlens := WFlen_entry ps hwf submodel arg e h1
  have hRmem : e.row.getD tu 0 ∈ e.row :=
    getD_mem _ _ (by rw [hlens.1]; exact htu)
  have hrowAll : ∀ p q R', ¬(p = submodel ∧ q = arg) →
      rowAt ps p q = some R' → R' ≠ e.row.getD tu 0 := by
    intro p q R' hpq hra
    unfold rowAt at hra
    cases hl : lookup2 ps p q with
    | none => rw [hl] at hra; simp at hra
    | some e' =>
      rw [hl] at hra
      dsimp only at hra
      cases hf : firstY e'.use with
      | none => rw [hf] at hra; simp at hra
      | some tu' =>
        rw [hf] at hra
        dsimp only at hra
        injection hra with hra
        subst hra
        have hlens' := WFlen_entry ps hwf p q e' hl
        have htu' := firstY_lt_length e'.use tu' hf
        have hmem' : e'.row.getD tu' 0 ∈ e'.row :=
          getD_mem _ _ (by rw [hlens'.1]; exact htu')
        have hdisj := rows_disjoint ps hrnd p q submodel arg e' e hl h1 hpq
        intro hc
        exact hdisj _ hmem' (hc ▸ hRmem)
  unfold update_model at h
  rw [hks] at h
  cases hpl : processList fuel reg (ks1 ++ submodel :: ks2) (init_st ps) with
  | err e0 w => rw [hpl] at h; exact absurd h (by simp)
  | hang => rw [hpl] at h; exact absurd h (by simp)
  | ok stF =>
    rw [hpl] at h
    dsimp only at h
    obtain ⟨ihw, ihf, ihid, ihfit, iherr⟩ :=
      processList_target fuel reg submodel arg e tu args_expected as1 as2
        ks1 ks2 (init_st ps) stF hpl hks1 hks2 h1 h2 h3 hreg hsplit hn1 hn2
        hrowAll hwf
    obtain ⟨hwr, hpr, hfr⟩ := finalize_ok_fields reg stF r h
    rw [hwr, hpr, hfr]
    exact ⟨ihw, ihf, ihid, ihfit, iherr⟩

/-- C5 witness: the theorem applied to the scenario-1 table, whose
`center` argument is fixed at guess 5 on sheet row 3. -/
theorem C5_fixed_parameter_writeback_witness :
    applyWrites store0 rC1.writes 3 Col.idC = Cell.s "-" ∧
    applyWrites store0 rC1.writes 3 Col.fittedC = Cell.n 5 ∧
    applyWrites store0 rC1.writes 3 Col.errorC = Cell.n 0 ∧
    recordedId rC1.params "gauss" "center" = some (Cell.s "-") ∧
    cellAt Entry.fitted rC1.params "gauss" "center" = some (Cell.n 5) ∧
    cellAt Entry.error rC1.params "gauss" "center" = some (Cell.n 0) ∧
    (∃ fs, ("gauss", fs) ∈ rC1.frags ∧ fs.getD 1 "" = "5, ") := by
  have h := C5_fixed_parameter_writeback 0 regC1 tblC1 rC1 "gauss" "center"
    (mkEnt (.s "y") (.s "n") (.n 5) 1) 0 ["x", "amplitude", "center"]
    ["amplitude"] [] [] [] (by decide) (by decide) (by decide) (by decide)
    (by decide) (by decide) (by decide) (by decide) (by decide) (by decide)
    (by decide) (by unfold RowsNodup; decide) (by unfold WFlen; decide)
  obtain ⟨hw, ⟨fs, hfs, hval⟩, hid, hfit, herr⟩ := h
  exact ⟨(hw store0).1, (hw store0).2.1, (hw store0).2.2, hid, hfit, herr,
    fs, hfs, hval.trans (by decide)⟩

/-! ### C10: first-use-case selection and later-row irrelevance -/

theorem getD_set {α : Type} (l : List α) (k j : Nat) (v d : α) :
    (l.set k v).getD j d = if j = k ∧ k < l.length then v else l.getD j d := by
  by_cases h : j = k ∧ k < l.length
  · obtain ⟨rfl, hk⟩ := h
    simp [List.getD, List.getElem?_set, hk]
  · rw [if_neg h]
    by_cases hj : j = k
    · subst hj
      have hk : ¬ j < l.length := fun hc => h ⟨rfl, hc⟩
      have hn : l[j]? = none := List.getElem?_eq_none (Nat.le_of_not_lt hk)
      simp [List.getD, List.getElem?_set, hk, hn]
    · simp [List.getD, List.getElem?_set, Ne.symm hj]

theorem lookup_map_of_map_eq {β γ : Type} (g : β → γ) :
    ∀ (l l' : List (String × β)),
      l.map (fun w => (w.1, g w.2)) = l'.map (fun w => (w.1, g w.2)) →
      ∀ a, (l.lookup a).map g = (l'.lookup a).map g
  | [], [], _, a => rfl
  | [], (w' :: t'), h, a => by simp at h
  | (w :: t), [], h, a => by simp at h
  | (w :: t), (w' :: t'), h, a => by
    simp only [List.map_cons, List.cons.injEq, Prod.mk.injEq] at h
    obtain ⟨⟨hk, hs⟩, ht⟩ := h
    by_cases ha : a = w.1
    · have hb : (a == w.1) = true := beq_iff_eq.mpr ha
      have hb' : (a == w'.1) = true := beq_iff_eq.mpr (hk ▸ ha)
      obtain ⟨w1, w2⟩ := w
      obtain ⟨w1', w2'⟩ := w'
      simp only [List.lookup_cons, hb, hb', Option.map_some']
      simpa using hs
    · have hb : (a == w.1) = false := beq_eq_false_iff_ne.mpr ha
      have hb' : (a == w'.1) = false := beq_eq_false_iff_ne.mpr (hk ▸ ha)
      obtain ⟨w1, w2⟩ := w
      obtain ⟨w1', w2'⟩ := w'
      simp only [List.lookup_cons, hb, hb']
      exact lookup_map_of_map_eq g t t' ht a

theorem lookupArgs_viewP (ps ps' : Params) (h : viewP ps = viewP ps')
    (s : String) :
    (ps.lookup s).map viewArgs = (ps'.lookup s).map viewArgs :=
  lookup_map_of_map_eq viewArgs ps ps' h s

theorem lookup2_viewP (ps ps' : Params) (h : viewP ps = viewP ps')
    (s a : String) :
    (lookup2 ps s a).map viewOf = (lookup2 ps' s a).map viewOf := by
  have hargs := lookupArgs_viewP ps ps' h s
  unfold lookup2
  cases h1 : ps.lookup s with
  | none =>
    cases h2 : ps'.lookup s with
    | none => rfl
    | some args' => rw [h1, h2] at hargs; simp at hargs
  | some args =>
    cases h2 : ps'.lookup s with
    | none => rw [h1, h2] at hargs; simp at hargs
    | some args' =>
      rw [h1, h2] at hargs
      simp only [Option.map_some', Option.some.injEq] at hargs
      exact lookup_map_of_map_eq viewOf args args' hargs a

theorem viewP_keys (ps ps' : Params) (h : viewP ps = viewP ps') :
    ps.map Prod.fst = ps'.map Prod.fst := by
  have := congrArg (List.map Prod.fst) h
  simpa [viewP, List.map_map, Function.comp] using this

theorem hasSub_viewP (ps ps' : Params) (h : viewP ps = viewP ps')
    (s : String) : hasSub ps s = hasSub ps' s := by
  have hargs := lookupArgs_viewP ps ps' h s
  unfold hasSub
  cases h1 : ps.lookup s <;> cases h2 : ps'.lookup s <;>
    rw [h1, h2] at hargs <;> simp_all

theorem hasArg_viewP (ps ps' : Params) (h : viewP ps = viewP ps')
    (s a : String) : hasArg ps s a = hasArg ps' s a := by
  have hargs := lookupArgs_viewP ps ps' h s
  unfold hasArg
  cases h1 : ps.lookup s with
  | none =>
    cases h2 : ps'.lookup s with
    | none => rfl
    | some args' => rw [h1, h2] at hargs; simp at hargs
  | some args =>
    cases h2 : ps'.lookup s with
    | none => rw [h1, h2] at hargs; simp at hargs
    | some args' =>
      rw [h1, h2] at hargs
      simp only [Option.map_some', Option.some.injEq] at hargs
      have := lookup_map_of_map_eq viewOf args args' hargs a
      dsimp only
      cases h3 : args.lookup a with
      | none =>
        cases h4 : args'.lookup a with
        | none => rfl
        | some e' => rw [h3, h4] at this; simp at this
      | some e =>
        cases h4 : args'.lookup a with
        | none => rw [h3, h4] at this; simp at this
        | some e' => rfl

theorem any_use_viewArgs (args args' : List (String × Entry))
    (h : viewArgs args = viewArgs args') :
    (args.any fun q => q.2.use.any (fun c => c = Cell.s "y"))
      = (args'.any fun q => q.2.use.any (fun c => c = Cell.s "y")) := by
  have h1 : ∀ l : List (String × Entry),
      (l.any fun q => q.2.use.any (fun c => c = Cell.s "y"))
        = ((viewArgs l).any fun q => q.2.use.any (fun c => c = Cell.s "y")) := by
    intro l
    induction l with
    | nil => rfl
    | cons w t ih => simp [viewArgs, viewOf, ih]
  rw [h1, h1, h]

theorem isActive_viewP (ps ps' : Params) (h : viewP ps = viewP ps')
    (s : String) : isActive ps s = isActive ps' s := by
  have hargs := lookupArgs_viewP ps ps' h s
  unfold isActive
  cases h1 : ps.lookup s with
  | none =>
    cases h2 : ps'.lookup s with
    | none => rfl
    | some args' => rw [h1, h2] at hargs; simp at hargs
  | some args =>
    cases h2 : ps'.lookup s with
    | none => rw [h1, h2] at hargs; simp at hargs
    | some args' =>
      rw [h1, h2] at hargs
      simp only [Option.map_some', Option.some.injEq] at hargs
      exact any_use_viewArgs args args' hargs

theorem lookupLinked_viewP (ps ps' : Params) (h : viewP ps = viewP ps')
    (submodel s2 a2 : String) :
    lookupLinked ps submodel s2 a2 = lookupLinked ps' submodel s2 a2 := by
  unfold lookupLinked
  rw [hasSub_viewP ps ps' h s2, hasArg_viewP ps ps' h submodel a2]
  by_cases hg : hasSub ps' s2 && hasArg ps' submodel a2
  · rw [if_pos hg, if_pos hg]
    have hlk := lookup2_viewP ps ps' h s2 a2
    cases h1 : lookup2 ps s2 a2 with
    | none =>
      cases h2 : lookup2 ps' s2 a2 with
      | none => rfl
      | some e2' => rw [h1, h2] at hlk; simp at hlk
    | some e2 =>
      cases h2 : lookup2 ps' s2 a2 with
      | none => rw [h1, h2] at hlk; simp at hlk
      | some e2' =>
        rw [h1, h2] at hlk
        simp only [Option.map_some', Option.some.injEq, viewOf,
          EView.mk.injEq] at hlk
        obtain ⟨hu, _, _, _, hva, _⟩ := hlk
        dsimp only
        rw [hu]
        cases hfy : firstY e2'.use with
        | none => rfl
        | some tul =>
          have hs1 : selIdx e2 = tul := by
            unfold selIdx; rw [hu, hfy]; rfl
          have hs2 : selIdx e2' = tul := by
            unfold selIdx; rw [hfy]; rfl
          rw [hs1, hs2] at hva
          dsimp only
          rw [hva]
  · rw [if_neg hg, if_neg hg]

theorem linkLoop_viewP (ps ps' : Params) (h : viewP ps = viewP ps')
    (submodel : String) (ws : List Write) :
    ∀ (fuel : Nat) (s2 a2 : String) (tul : Nat) (vary2 : Cell),
      linkLoop ps submodel ws fuel s2 a2 tul vary2
        = linkLoop ps' submodel ws fuel s2 a2 tul vary2 := by
  intro fuel
  induction fuel with
  | zero => intro s2 a2 tul vary2; unfold linkLoop; rfl
  | succ n ih =>
    intro s2 a2 tul vary2
    unfold linkLoop
    by_cases hv : vary2 = Cell.s "y" ∨ vary2 = Cell.s "n"
    · rw [if_pos hv, if_pos hv]
    · rw [if_neg hv, if_neg hv]
      cases splitVary vary2 with
      | error e => rfl
      | ok p =>
        obtain ⟨s2b, a2b⟩ := p
        dsimp only
        rw [lookupLinked_viewP ps ps' h submodel s2b a2b]
        cases lookupLinked ps' submodel s2b a2b with
        | error e => rfl
        | ok q =>
          obtain ⟨tulb, vary2b⟩ := q
          dsimp only
          exact ih s2b a2b tulb vary2b

/-- Whenever `linkLoop` starts from a tuple produced by `lookupLinked`
and terminates with `ok`, the final tuple also satisfies the
`lookupLinked` equation: in particular its index is the first `'y'`
use-case of the final target. -/
theorem linkLoop_ok_linked (ps : Params) (submodel : String)
    (ws : List Write) :
    ∀ (fuel : Nat) (s2 a2 : String) (tul : Nat) (vary2 : Cell),
      lookupLinked ps submodel s2 a2 = .ok (tul, vary2) →
      ∀ (s2f a2f : String) (tulf : Nat) (vary2f : Cell),
        linkLoop ps submodel ws fuel s2 a2 tul vary2
          = .ok (s2f, a2f, tulf, vary2f) →
        lookupLinked ps submodel s2f a2f = .ok (tulf, vary2f) := by
  intro fuel
  induction fuel with
  | zero =>
    intro s2 a2 tul vary2 hinv s2f a2f tulf vary2f hloop
    unfold linkLoop at hloop
    by_cases hv : vary2 = Cell.s "y" ∨ vary2 = Cell.s "n"
    · rw [if_pos hv] at hloop
      obtain ⟨rfl, rfl, rfl, rfl⟩ :
          s2 = s2f ∧ a2 = a2f ∧ tul = tulf ∧ vary2 = vary2f := by
        cases hloop; exact ⟨rfl, rfl, rfl, rfl⟩
      exact hinv
    · rw [if_neg hv] at hloop
      cases hloop
  | succ n ih =>
    intro s2 a2 tul vary2 hinv s2f a2f tulf vary2f hloop
    unfold linkLoop at hloop
    by_cases hv : vary2 = Cell.s "y" ∨ vary2 = Cell.s "n"
    · rw [if_pos hv] at hloop
      obtain ⟨rfl, rfl, rfl, rfl⟩ :
          s2 = s2f ∧ a2 = a2f ∧ tul = tulf ∧ vary2 = vary2f := by
        cases hloop; exact ⟨rfl, rfl, rfl, rfl⟩
      exact hinv
    · rw [if_neg hv] at hloop
      cases hsv : splitVary vary2 with
      | error e => rw [hsv] at hloop; cases hloop
      | ok p =>
        obtain ⟨s2b, a2b⟩ := p
        rw [hsv] at hloop
        dsimp only at hloop
        cases hll : lookupLinked ps submodel s2b a2b with
        | error e => rw [hll] at hloop; cases hloop
        | ok q =>
          obtain ⟨tulb, vary2b⟩ := q
          rw [hll] at hloop
          dsimp only at hloop
          exact ih s2b a2b tulb vary2b hll s2f a2f tulf vary2f hloop


/-- The selected index as a function of the view alone. -/
def EView.sel (w : EView) : Nat := (firstY w.use).getD w.use.length

def gSetId (k : Nat) (v : Cell) (w : EView) : EView :=
  { w with idA := if w.sel = k ∧ k < w.nid then v else w.idA }

def gSetFix (k : Nat) (v : Cell) (w : EView) : EView :=
  { w with
      idA := if w.sel = k ∧ k < w.nid then Cell.s "-" else w.idA,
      fitA := if w.sel = k ∧ k < w.nfit then v else w.fitA,
      errA := if w.sel = k ∧ k < w.nerr then Cell.n 0 else w.errA }

def gSetFE (k : Nat) (v1 v2 : Cell) (w : EView) : EView :=
  { w with
      fitA := if w.sel = k ∧ k < w.nfit then v1 else w.fitA,
      errA := if w.sel = k ∧ k < w.nerr then v2 else w.errA }

theorem getD_set1 {α : Type} (l : List α) (k j : Nat) (v d : α) :
    (l.set k v)[j]?.getD d = if j = k ∧ k < l.length then v else l[j]?.getD d := by
  have := getD_set l k j v d
  simpa [List.getD] using this

theorem viewOf_setId_eq (k : Nat) (v : Cell) (e : Entry) :
    viewOf { e with id := e.id.set k v } = gSetId k v (viewOf e) := by
  simp [viewOf, gSetId, EView.sel, selIdx, getD_set1]

theorem viewOf_setFix_eq (k : Nat) (v : Cell) (e : Entry) :
    viewOf { e with id := e.id.set k (Cell.s "-"),
                    fitted := e.fitted.set k v,
                    error := e.error.set k (Cell.n 0) }
      = gSetFix k v (viewOf e) := by
  simp [viewOf, gSetFix, EView.sel, selIdx, getD_set1]

theorem viewOf_setFE_eq (k : Nat) (v1 v2 : Cell) (e : Entry) :
    viewOf { e with fitted := e.fitted.set k v1, error := e.error.set k v2 }
      = gSetFE k v1 v2 (viewOf e) := by
  simp [viewOf, gSetFE, EView.sel, selIdx, getD_set1]

theorem viewArgs_map_upd (a : String) (f : Entry → Entry)
    (g : EView → EView) (hf : ∀ e, viewOf (f e) = g (viewOf e)) :
    ∀ args : List (String × Entry),
      viewArgs (args.map fun w => if w.1 = a then (w.1, f w.2) else w)
        = (viewArgs args).map fun w => if w.1 = a then (w.1, g w.2) else w := by
  intro args
  induction args with
  | nil => rfl
  | cons w t ih =>
    by_cases hw : w.1 = a
    · simp only [List.map_cons, if_pos hw, viewArgs] at ih ⊢
      simp [hf, ih]
    · simp only [List.map_cons, if_neg hw, viewArgs] at ih ⊢
      simp [ih, hw]

/-- `updEntry` factors through the view: the view of the updated table
is a function of the view of the original table. -/
theorem viewP_updEntry_view (s a : String) (f : Entry → Entry)
    (g : EView → EView) (hf : ∀ e, viewOf (f e) = g (viewOf e)) :
    ∀ ps : Params,
      viewP (updEntry ps s a f)
        = (viewP ps).map fun q =>
            if q.1 = s then
              (q.1, q.2.map fun w => if w.1 = a then (w.1, g w.2) else w)
            else q := by
  intro ps
  induction ps with
  | nil => rfl
  | cons q t ih =>
    simp only [updEntry, viewP, List.map_cons] at ih ⊢
    by_cases hq : q.1 = s
    · rw [if_pos hq, if_pos hq]
      dsimp only
      rw [viewArgs_map_upd a f g hf q.2]
      exact congrArg₂ List.cons rfl ih
    · rw [if_neg hq, if_neg hq]
      exact congrArg₂ List.cons rfl ih

theorem viewP_updEntry_congr (s a : String) (f : Entry → Entry)
    (g : EView → EView) (hf : ∀ e, viewOf (f e) = g (viewOf e))
    (ps ps' : Params) (h : viewP ps = viewP ps') :
    viewP (updEntry ps s a f) = viewP (updEntry ps' s a f) := by
  rw [viewP_updEntry_view s a f g hf, viewP_updEntry_view s a f g hf, h]

theorem obsSt_ext (a b : St)
    (h1 : a.var_string = b.var_string) (h2 : a.model_string = b.model_string)
    (h3 : a.p_min = b.p_min) (h4 : a.p_max = b.p_max)
    (h5 : a.p_guess = b.p_guess) (h6 : a.p_fitted = b.p_fitted)
    (h7 : a.p_error = b.p_error) (h8 : a.p = b.p) (h9 : a.x = b.x)
    (h10 : a.linked_parameters = b.linked_parameters)
    (h11 : a.writes = b.writes) (h12 : viewP a.params = viewP b.params)
    (h13 : a.frags = b.frags) : obsSt a = obsSt b := by
  simp only [obsSt]
  rw [h1, h2, h3, h4, h5, h6, h7, h8, h9, h10, h11, h12, h13]

/-- `['use'].index('y')` really is the first use-case with `use = 'y'`:
no earlier row has one. -/
theorem firstY_minimal (l : List Cell) (i : Nat) (h : firstY l = some i) :
    ∀ j, j < i → l.getD j (Cell.s "") ≠ Cell.s "y" := by
  obtain ⟨hlt, hidx⟩ := List.findIdx?_eq_some_iff_findIdx_eq.mp h
  intro j hj
  have hjl : j < l.length := lt_trans hj hlt
  have hflt : j < List.findIdx (fun c => decide (c = Cell.s "y")) l := by
    rw [hidx]; exact hj
  have hp := List.not_of_lt_findIdx hflt
  rw [List.getD_eq_getElem _ _ hjl]
  simpa using hp


/-- `processArg` observes its state only through `obsSt`: view-equal
states give identical errors, identical fragments, and view-equal
output states. -/
theorem processArg_viewP (fuel : Nat) (submodel arg : String) (st st' : St)
    (h : obsSt st = obsSt st') :
    Res.map (fun q => (obsSt q.1, q.2)) (processArg fuel submodel arg st)
      = Res.map (fun q => (obsSt q.1, q.2)) (processArg fuel submodel arg st') := by
  simp only [obsSt, StV.mk.injEq] at h
  obtain ⟨hvs, hms, hmin, hmax, hpg, hpf, hpe, hp, hx, hlp, hw, hview, hfr⟩ := h
  unfold processArg
  rw [← hvs, ← hms, ← hmin, ← hmax, ← hpg, ← hpf, ← hpe, ← hp, ← hx, ← hlp,
    ← hw, ← hfr]
  have hlk := lookup2_viewP st.params st'.params hview submodel arg
  cases h1 : lookup2 st.params submodel arg with
  | none =>
    cases h2 : lookup2 st'.params submodel arg with
    | none => rfl
    | some entry' => rw [h1, h2] at hlk; simp at hlk
  | some entry =>
    cases h2 : lookup2 st'.params submodel arg with
    | none => rw [h1, h2] at hlk; simp at hlk
    | some entry' =>
      rw [h1, h2] at hlk
      simp only [Option.map_some', Option.some.injEq, viewOf,
        EView.mk.injEq] at hlk
      obtain ⟨hu, hnid, hnf, hne, hva, hga, hmi2, hma2, hfa, hea, hia, hra⟩ := hlk
      dsimp only
      cases hfy : firstY entry.use with
      | none =>
        have hfy' : firstY entry'.use = none := by rw [← hu]; exact hfy
        rw [hfy']
      | some to_use =>
        have hfy' : firstY entry'.use = some to_use := by rw [← hu]; exact hfy
        rw [hfy']
        dsimp only
        have hsel : selIdx entry = to_use := by unfold selIdx; rw [hfy]; rfl
        have hsel' : selIdx entry' = to_use := by unfold selIdx; rw [hfy']; rfl
        rw [hsel, hsel'] at hva hga hmi2 hma2 hfa hea hia hra
        rw [← hva, ← hra, ← hga, ← hmi2, ← hma2, ← hfa, ← hea]
        by_cases hc1 : entry.vary.getD to_use (Cell.s "") ≠ Cell.s "y" ∧
            entry.vary.getD to_use (Cell.s "") ≠ Cell.s "n"
        · rw [if_pos hc1, if_pos hc1]
          cases hsv : splitVary (entry.vary.getD to_use (Cell.s "")) with
          | error e => rfl
          | ok p =>
            obtain ⟨s2, a2⟩ := p
            dsimp only
            rw [← lookupLinked_viewP st.params st'.params hview submodel s2 a2]
            cases hll : lookupLinked st.params submodel s2 a2 with
            | error e => rfl
            | ok q =>
              obtain ⟨tul, vary2⟩ := q
              dsimp only
              rw [← linkLoop_viewP st.params st'.params hview submodel
                st.writes fuel s2 a2 tul vary2]
              cases hloop : linkLoop st.params submodel st.writes fuel
                  s2 a2 tul vary2 with
              | hang => rfl
              | err e w => rfl
              | ok r =>
                obtain ⟨s2f, a2f, tulf, vary2f⟩ := r
                dsimp only
                have hinv := linkLoop_ok_linked st.params submodel st.writes
                  fuel s2 a2 tul vary2 hll s2f a2f tulf vary2f hloop
                by_cases hn : vary2f = Cell.s "n"
                · rw [if_pos hn, if_pos hn]
                  have hlk2 := lookup2_viewP st.params st'.params hview s2f a2f
                  cases h3 : lookup2 st.params s2f a2f with
                  | none =>
                    cases h4 : lookup2 st'.params s2f a2f with
                    | none => rfl
                    | some e2' => rw [h3, h4] at hlk2; simp at hlk2
                  | some e2 =>
                    cases h4 : lookup2 st'.params s2f a2f with
                    | none => rw [h3, h4] at hlk2; simp at hlk2
                    | some e2' =>
                      rw [h3, h4] at hlk2
                      simp only [Option.map_some', Option.some.injEq, viewOf,
                        EView.mk.injEq] at hlk2
                      obtain ⟨hu2, _, _, _, _, hga2, _, _, _, _, _, _⟩ := hlk2
                      have htulf : firstY e2.use = some tulf := by
                        unfold lookupLinked at hinv
                        by_cases hg : hasSub st.params s2f &&
                            hasArg st.params submodel a2f
                        · rw [if_pos hg, h3] at hinv
                          dsimp only at hinv
                          cases hfy2 : firstY e2.use with
                          | none => rw [hfy2] at hinv; cases hinv
                          | some t =>
                            rw [hfy2] at hinv
                            simp only [Except.ok.injEq, Prod.mk.injEq] at hinv
                            rw [hinv.1]
                        · rw [if_neg hg] at hinv; cases hinv
                      have hsel2 : selIdx e2 = tulf := by
                        unfold selIdx; rw [htulf]; rfl
                      have hsel2' : selIdx e2' = tulf := by
                        unfold selIdx; rw [← hu2, htulf]; rfl
                      rw [hsel2, hsel2'] at hga2
                      dsimp only
                      rw [← hga2]
                      simp only [Res.map]
                      refine congrArg Res.ok (congrArg₂ Prod.mk ?_ rfl)
                      apply obsSt_ext <;> try rfl
                      exact hview
                · rw [if_neg hn, if_neg hn]
                  cases hlp2 : st.linked_parameters.lookup (s2f ++ "," ++ a2f) with
                  | some x_temp =>
                    dsimp only
                    simp only [Res.map]
                    refine congrArg Res.ok (congrArg₂ Prod.mk ?_ rfl)
                    apply obsSt_ext <;> try rfl
                    exact viewP_updEntry_congr submodel arg _ _
                      (fun e => viewOf_setId_eq to_use _ e)
                      st.params st'.params hview
                  | none =>
                    dsimp only
                    simp only [Res.map]
                    refine congrArg Res.ok (congrArg₂ Prod.mk ?_ rfl)
                    apply obsSt_ext <;> try rfl
                    exact viewP_updEntry_congr submodel arg _ _
                      (fun e => viewOf_setId_eq to_use _ e)
                      st.params st'.params hview
        · rw [if_neg hc1, if_neg hc1]
          by_cases hc2 : entry.vary.getD to_use (Cell.s "") = Cell.s "n"
          · rw [if_pos hc2, if_pos hc2]
            simp only [Res.map]
            refine congrArg Res.ok (congrArg₂ Prod.mk ?_ rfl)
            apply obsSt_ext <;> try rfl
            exact viewP_updEntry_congr submodel arg _ _
              (fun e => viewOf_setFix_eq to_use _ e)
              st.params st'.params hview
          · rw [if_neg hc2, if_neg hc2]
            cases hlp2 : st.linked_parameters.lookup (submodel ++ "," ++ arg) with
            | some x_temp =>
              dsimp only
              simp only [Res.map]
              refine congrArg Res.ok (congrArg₂ Prod.mk ?_ rfl)
              apply obsSt_ext <;> try rfl
              exact viewP_updEntry_congr submodel arg _ _
                (fun e => viewOf_setId_eq to_use _ e)
                st.params st'.params hview
            | none =>
              dsimp only
              simp only [Res.map]
              refine congrArg Res.ok (congrArg₂ Prod.mk ?_ rfl)
              apply obsSt_ext <;> try rfl
              exact viewP_updEntry_congr submodel arg _ _
                (fun e => viewOf_setId_eq to_use _ e)
                st.params st'.params hview


theorem processArgs_viewP (fuel : Nat) (submodel : String) :
    ∀ (l : List String) (st st' : St), obsSt st = obsSt st' →
      Res.map (fun q => (obsSt q.1, q.2)) (processArgs fuel submodel l st)
        = Res.map (fun q => (obsSt q.1, q.2)) (processArgs fuel submodel l st')
  | [], st, st', h => by
    simp only [processArgs, Res.map]
    rw [h]
  | a :: rest, st, st', h => by
    simp only [processArgs]
    have h1 := processArg_viewP fuel submodel a st st' h
    cases hr : processArg fuel submodel a st with
    | err e w =>
      cases hr' : processArg fuel submodel a st' with
      | err e' w' =>
        rw [hr, hr'] at h1
        simp only [Res.map] at h1
        cases h1
        rfl
      | ok p => rw [hr, hr'] at h1; simp [Res.map] at h1
      | hang => rw [hr, hr'] at h1; simp [Res.map] at h1
    | hang =>
      cases hr' : processArg fuel submodel a st' with
      | hang => rfl
      | err e w => rw [hr, hr'] at h1; simp [Res.map] at h1
      | ok p => rw [hr, hr'] at h1; simp [Res.map] at h1
    | ok p =>
      obtain ⟨st1, f⟩ := p
      cases hr' : processArg fuel submodel a st' with
      | err e w => rw [hr, hr'] at h1; simp [Res.map] at h1
      | hang => rw [hr, hr'] at h1; simp [Res.map] at h1
      | ok p' =>
        obtain ⟨st1', f'⟩ := p'
        rw [hr, hr'] at h1
        simp only [Res.map, Res.ok.injEq, Prod.mk.injEq] at h1
        obtain ⟨hst1, hf⟩ := h1
        subst hf
        dsimp only
        have h2 := processArgs_viewP fuel submodel rest st1 st1' hst1
        cases hq : processArgs fuel submodel rest st1 with
        | err e w =>
          cases hq' : processArgs fuel submodel rest st1' with
          | err e' w' =>
            rw [hq, hq'] at h2
            simp only [Res.map] at h2
            cases h2
            rfl
          | ok p2 => rw [hq, hq'] at h2; simp [Res.map] at h2
          | hang => rw [hq, hq'] at h2; simp [Res.map] at h2
        | hang =>
          cases hq' : processArgs fuel submodel rest st1' with
          | hang => rfl
          | err e w => rw [hq, hq'] at h2; simp [Res.map] at h2
          | ok p2 => rw [hq, hq'] at h2; simp [Res.map] at h2
        | ok p2 =>
          obtain ⟨st2, fs⟩ := p2
          cases hq' : processArgs fuel submodel rest st1' with
          | err e w => rw [hq, hq'] at h2; simp [Res.map] at h2
          | hang => rw [hq, hq'] at h2; simp [Res.map] at h2
          | ok p2' =>
            obtain ⟨st2', fs'⟩ := p2'
            rw [hq, hq'] at h2
            simp only [Res.map, Res.ok.injEq, Prod.mk.injEq] at h2
            obtain ⟨hst2, hfs⟩ := h2
            subst hfs
            dsimp only
            simp only [Res.map, Res.ok.injEq, Prod.mk.injEq]
            exact ⟨hst2, trivial⟩

theorem processSubmodel_viewP (fuel : Nat) (reg : Registry)
    (submodel : String) (st st' : St) (h : obsSt st = obsSt st') :
    Res.map obsSt (processSubmodel fuel reg submodel st)
      = Res.map obsSt (processSubmodel fuel reg submodel st') := by
  have hfields := h
  simp only [obsSt, StV.mk.injEq] at hfields
  obtain ⟨hvs, hms, hmin, hmax, hpg, hpf, hpe, hp, hx, hlp, hw, hview, hfr⟩ :=
    hfields
  unfold processSubmodel
  rw [← hvs, ← hms, ← hmin, ← hmax, ← hpg, ← hpf, ← hpe, ← hp, ← hx, ← hlp,
    ← hw, ← hfr]
  rw [← isActive_viewP st.params st'.params hview submodel]
  by_cases hact : isActive st.params submodel
  · rw [if_pos hact, if_pos hact]
    dsimp only
    cases hrg : reg.lookup ((pySplit submodel '#').headD submodel) with
    | none => rfl
    | some args_expected =>
      dsimp only
      have hst1 : obsSt { st with
          model_string := st.model_string ++
            (pySplit submodel '#').headD submodel ++ "(x, " }
          = obsSt { st with
          model_string :=
            st.model_string ++ (pySplit submodel '#').headD submodel ++ "(x, ",
          params := st'.params } := by
        apply obsSt_ext <;> try rfl
        exact hview
      have h2 := processArgs_viewP fuel submodel args_expected.tail _ _ hst1
      cases hq : processArgs fuel submodel args_expected.tail
          { st with model_string := st.model_string ++
            (pySplit submodel '#').headD submodel ++ "(x, " } with
      | err e w =>
        cases hq' : processArgs fuel submodel args_expected.tail
            { st with
              model_string :=
                st.model_string ++ (pySplit submodel '#').headD submodel ++ "(x, ",
              params := st'.params } with
        | err e' w' =>
          rw [hq, hq'] at h2
          simp only [Res.map] at h2
          cases h2
          rfl
        | ok p2 => rw [hq, hq'] at h2; simp [Res.map] at h2
        | hang => rw [hq, hq'] at h2; simp [Res.map] at h2
      | hang =>
        cases hq' : processArgs fuel submodel args_expected.tail
            { st with
              model_string :=
                st.model_string ++ (pySplit submodel '#').headD submodel ++ "(x, ",
              params := st'.params } with
        | hang => rfl
        | err e w => rw [hq, hq'] at h2; simp [Res.map] at h2
        | ok p2 => rw [hq, hq'] at h2; simp [Res.map] at h2
      | ok p2 =>
        obtain ⟨st2, fs⟩ := p2
        cases hq' : processArgs fuel submodel args_expected.tail
            { st with
              model_string :=
                st.model_string ++ (pySplit submodel '#').headD submodel ++ "(x, ",
              params := st'.params } with
        | err e w => rw [hq, hq'] at h2; simp [Res.map] at h2
        | hang => rw [hq, hq'] at h2; simp [Res.map] at h2
        | ok p2' =>
          obtain ⟨st2', fs'⟩ := p2'
          rw [hq, hq'] at h2
          simp only [Res.map, Res.ok.injEq, Prod.mk.injEq] at h2
          obtain ⟨hst2, hfs⟩ := h2
          subst hfs
          dsimp only
          simp only [Res.map, Res.ok.injEq]
          have hst2f := hst2
          simp only [obsSt, StV.mk.injEq] at hst2f
          obtain ⟨g1, g2, g3, g4, g5, g6, g7, g8, g9, g10, g11, g12, g13⟩ :=
            hst2f
          apply obsSt_ext <;> dsimp only
          · exact g1
          · rw [g2]
          · exact g3
          · exact g4
          · exact g5
          · exact g6
          · exact g7
          · exact g8
          · exact g9
          · exact g10
          · exact g11
          · exact g12
          · rw [g13]
  · rw [if_neg hact, if_neg hact]
    simp only [Res.map, Res.ok.injEq]
    exact h

theorem processList_viewP (fuel : Nat) (reg : Registry) :
    ∀ (l : List String) (st st' : St), obsSt st = obsSt st' →
      Res.map obsSt (processList fuel reg l st)
        = Res.map obsSt (processList fuel reg l st')
  | [], st, st', h => by
    simp only [processList, Res.map, Res.ok.injEq]
    exact h
  | s :: rest, st, st', h => by
    simp only [processList]
    have h1 := processSubmodel_viewP fuel reg s st st' h
    cases hr : processSubmodel fuel reg s st with
    | err e w =>
      cases hr' : processSubmodel fuel reg s st' with
      | err e' w' =>
        rw [hr, hr'] at h1
        simp only [Res.map] at h1
        cases h1
        rfl
      | ok st1' => rw [hr, hr'] at h1; simp [Res.map] at h1
      | hang => rw [hr, hr'] at h1; simp [Res.map] at h1
    | hang =>
      cases hr' : processSubmodel fuel reg s st' with
      | hang => rfl
      | err e w => rw [hr, hr'] at h1; simp [Res.map] at h1
      | ok st1' => rw [hr, hr'] at h1; simp [Res.map] at h1
    | ok st1 =>
      cases hr' : processSubmodel fuel reg s st' with
      | err e w => rw [hr, hr'] at h1; simp [Res.map] at h1
      | hang => rw [hr, hr'] at h1; simp [Res.map] at h1
      | ok st1' =>
        rw [hr, hr'] at h1
        simp only [Res.map, Res.ok.injEq] at h1
        exact processList_viewP fuel reg rest st1 st1' h1


theorem sub_arg_viewP (ps ps' : Params) (h : viewP ps = viewP ps')
    (idl : List String) (pg pf : List Cell) (s a : String) :
    sub_arg ps idl pg pf s a = sub_arg ps' idl pg pf s a := by
  unfold sub_arg
  have hlk := lookup2_viewP ps ps' h s a
  cases h1 : lookup2 ps s a with
  | none =>
    cases h2 : lookup2 ps' s a with
    | none => rfl
    | some e' => rw [h1, h2] at hlk; simp at hlk
  | some e =>
    cases h2 : lookup2 ps' s a with
    | none => rw [h1, h2] at hlk; simp at hlk
    | some e' =>
      rw [h1, h2] at hlk
      simp only [Option.map_some', Option.some.injEq, viewOf,
        EView.mk.injEq] at hlk
      obtain ⟨hu, _, _, _, _, hga, _, _, hfa, _, hia, _⟩ := hlk
      dsimp only
      cases hfy : firstY e.use with
      | none =>
        have hfy' : firstY e'.use = none := by rw [← hu]; exact hfy
        rw [hfy']
      | some to_use =>
        have hfy' : firstY e'.use = some to_use := by rw [← hu]; exact hfy
        rw [hfy']
        dsimp only
        have hsel : selIdx e = to_use := by unfold selIdx; rw [hfy]; rfl
        have hsel' : selIdx e' = to_use := by unfold selIdx; rw [hfy']; rfl
        rw [hsel, hsel'] at hga hfa hia
        rw [← hga, ← hfa, ← hia]

theorem sub_args_viewP (ps ps' : Params) (h : viewP ps = viewP ps')
    (idl : List String) (pg pf : List Cell) (s : String) :
    ∀ (l : List String) (acc : String × String),
      sub_args ps idl pg pf s l acc = sub_args ps' idl pg pf s l acc
  | [], acc => rfl
  | a :: rest, acc => by
    simp only [sub_args]
    rw [← sub_arg_viewP ps ps' h idl pg pf s a]
    cases sub_arg ps idl pg pf s a with
    | error e => rfl
    | ok gf =>
      obtain ⟨g, f⟩ := gf
      dsimp only
      exact sub_args_viewP ps ps' h idl pg pf s rest _

theorem sub_one_viewP (reg : Registry) (ps ps' : Params)
    (h : viewP ps = viewP ps') (idl : List String) (pg pf : List Cell)
    (s : String) :
    sub_one reg ps idl pg pf s = sub_one reg ps' idl pg pf s := by
  unfold sub_one
  dsimp only
  cases reg.lookup ((pySplit s '#').headD s) with
  | none => rfl
  | some args_expected =>
    dsimp only
    rw [← sub_args_viewP ps ps' h idl pg pf s args_expected.tail]

theorem sub_list_viewP (reg : Registry) (ps ps' : Params)
    (h : viewP ps = viewP ps') (idl : List String) (pg pf : List Cell) :
    ∀ l : List String,
      sub_list reg ps idl pg pf l = sub_list reg ps' idl pg pf l
  | [] => rfl
  | s :: rest => by
    simp only [sub_list]
    rw [← isActive_viewP ps ps' h s]
    by_cases hact : isActive ps s
    · rw [if_pos hact, if_pos hact]
      rw [← sub_one_viewP reg ps ps' h idl pg pf s]
      cases sub_one reg ps idl pg pf s with
      | error e => rfl
      | ok gf =>
        dsimp only
        rw [sub_list_viewP reg ps ps' h idl pg pf rest]
    · rw [if_neg hact, if_neg hact]
      exact sub_list_viewP reg ps ps' h idl pg pf rest

/-- `update_submodels` returns literally identical results on view-equal
tables. -/
theorem update_submodels_viewP (reg : Registry) (ps ps' : Params)
    (h : viewP ps = viewP ps') (idl : List String) (pg pf : List Cell) :
    update_submodels reg ps idl pg pf = update_submodels reg ps' idl pg pf := by
  unfold update_submodels
  rw [← viewP_keys ps ps' h]
  exact sub_list_viewP reg ps ps' h idl pg pf (ps.map Prod.fst)

theorem obsResult_ext (a b : Result)
    (h1 : a.var_string = b.var_string) (h2 : a.model_string = b.model_string)
    (h3 : a.p_min = b.p_min) (h4 : a.p_max = b.p_max)
    (h5 : a.p_guess = b.p_guess) (h6 : a.p_fitted = b.p_fitted)
    (h7 : a.p_error = b.p_error) (h8 : a.id_list = b.id_list)
    (h9 : a.linked_parameters = b.linked_parameters)
    (h10 : a.writes = b.writes) (h11 : viewP a.params = viewP b.params)
    (h12 : a.frags = b.frags) (h13 : a.submodel = b.submodel) :
    obsResult a = obsResult b := by
  simp only [obsResult]
  rw [h1, h2, h3, h4, h5, h6, h7, h8, h9, h10, h11, h12, h13]

theorem finalize_viewP (reg : Registry) (st st' : St)
    (h : obsSt st = obsSt st') :
    Res.map obsResult (finalize reg st)
      = Res.map obsResult (finalize reg st') := by
  have hfields := h
  simp only [obsSt, StV.mk.injEq] at hfields
  obtain ⟨hvs, hms, hmin, hmax, hpg, hpf, hpe, hp, hx, hlp, hw, hview, hfr⟩ :=
    hfields
  unfold finalize
  rw [← hvs, ← hms, ← hmin, ← hmax, ← hpg, ← hpf, ← hpe, ← hlp, ← hw, ← hfr]
  dsimp only
  by_cases hg : st.p_guess.contains (Cell.s "")
  · rw [if_pos hg, if_pos hg]
  · rw [if_neg hg, if_neg hg]
    rw [← update_submodels_viewP reg st.params st'.params hview]
    cases update_submodels reg st.params (mk_id_list st.var_string) st.p_guess
        (if st.p_fitted.contains (Cell.s "") then
          st.p_fitted.map (fun c => if c = Cell.s "" then Cell.n 0 else c)
        else st.p_fitted) with
    | error e => rfl
    | ok subs =>
      dsimp only
      simp only [Res.map]
      refine congrArg Res.ok ?_
      apply obsResult_ext <;> try rfl
      exact hview

theorem update_model_viewP (fuel : Nat) (reg : Registry) (ps ps' : Params)
    (h : viewP ps = viewP ps') :
    Res.map obsResult (update_model fuel reg ps)
      = Res.map obsResult (update_model fuel reg ps') := by
  unfold update_model
  rw [← viewP_keys ps ps' h]
  have hinit : obsSt (init_st ps) = obsSt (init_st ps') := by
    apply obsSt_ext <;> try rfl
    exact h
  have h1 := processList_viewP fuel reg (ps.map Prod.fst)
    (init_st ps) (init_st ps') hinit
  cases hr : processList fuel reg (ps.map Prod.fst) (init_st ps) with
  | err e w =>
    cases hr' : processList fuel reg (ps.map Prod.fst) (init_st ps') with
    | err e' w' =>
      rw [hr, hr'] at h1
      simp only [Res.map] at h1
      cases h1
      rfl
    | ok st1' => rw [hr, hr'] at h1; simp [Res.map] at h1
    | hang => rw [hr, hr'] at h1; simp [Res.map] at h1
  | hang =>
    cases hr' : processList fuel reg (ps.map Prod.fst) (init_st ps') with
    | hang => rfl
    | err e w => rw [hr, hr'] at h1; simp [Res.map] at h1
    | ok st1' => rw [hr, hr'] at h1; simp [Res.map] at h1
  | ok st1 =>
    cases hr' : processList fuel reg (ps.map Prod.fst) (init_st ps') with
    | err e w => rw [hr, hr'] at h1; simp [Res.map] at h1
    | hang => rw [hr, hr'] at h1; simp [Res.map] at h1
    | ok st1' =>
      rw [hr, hr'] at h1
      simp only [Res.map, Res.ok.injEq] at h1
      dsimp only
      exact finalize_viewP reg st1 st1' h1


theorem fit_wb_arg_viewP (idl : List String) (pf pe : List Cell)
    (s a : String) (q q' : Params × List Write) (hq : obsPW q = obsPW q') :
    (fit_wb_arg idl pf pe s a q).map obsPW
      = (fit_wb_arg idl pf pe s a q').map obsPW := by
  obtain ⟨ps, ws⟩ := q
  obtain ⟨ps', ws'⟩ := q'
  simp only [obsPW, Prod.mk.injEq] at hq
  obtain ⟨hview, hws⟩ := hq
  subst hws
  unfold fit_wb_arg
  dsimp only
  have hlk := lookup2_viewP ps ps' hview s a
  cases h1 : lookup2 ps s a with
  | none =>
    cases h2 : lookup2 ps' s a with
    | none => rfl
    | some e' => rw [h1, h2] at hlk; simp at hlk
  | some e =>
    cases h2 : lookup2 ps' s a with
    | none => rw [h1, h2] at hlk; simp at hlk
    | some e' =>
      rw [h1, h2] at hlk
      simp only [Option.map_some', Option.some.injEq, viewOf,
        EView.mk.injEq] at hlk
      obtain ⟨hu, _, _, _, _, _, _, _, _, _, hia, hra⟩ := hlk
      dsimp only
      cases hfy : firstY e.use with
      | none =>
        have hfy' : firstY e'.use = none := by rw [← hu]; exact hfy
        rw [hfy']
      | some to_use =>
        have hfy' : firstY e'.use = some to_use := by rw [← hu]; exact hfy
        rw [hfy']
        dsimp only
        have hsel : selIdx e = to_use := by unfold selIdx; rw [hfy]; rfl
        have hsel' : selIdx e' = to_use := by unfold selIdx; rw [hfy']; rfl
        rw [hsel, hsel'] at hia hra
        rw [← hia, ← hra]
        by_cases hid : e.id.getD to_use (Cell.s "") ≠ Cell.s "-"
        · rw [if_pos hid, if_pos hid]
          cases idl.findIdx? (fun t => Cell.s t = e.id.getD to_use (Cell.s "")) with
          | none => rfl
          | some i =>
            dsimp only
            simp only [Except.map, obsPW]
            refine congrArg Except.ok (congrArg₂ Prod.mk ?_ rfl)
            exact viewP_updEntry_congr s a _ _
              (fun e0 => viewOf_setFE_eq to_use _ _ e0) ps ps' hview
        · rw [if_neg hid, if_neg hid]
          simp only [Except.map, obsPW, Prod.mk.injEq]
          exact congrArg Except.ok (congrArg₂ Prod.mk hview rfl)

theorem fit_wb_args_viewP (idl : List String) (pf pe : List Cell)
    (s : String) :
    ∀ (l : List String) (q q' : Params × List Write), obsPW q = obsPW q' →
      (fit_wb_args idl pf pe s l q).map obsPW
        = (fit_wb_args idl pf pe s l q').map obsPW
  | [], q, q', h => by
    simp only [fit_wb_args, Except.map]
    rw [h]
  | a :: rest, q, q', h => by
    simp only [fit_wb_args]
    have h1 := fit_wb_arg_viewP idl pf pe s a q q' h
    cases hr : fit_wb_arg idl pf pe s a q with
    | error e =>
      cases hr' : fit_wb_arg idl pf pe s a q' with
      | error e' =>
        rw [hr, hr'] at h1
        simp only [Except.map] at h1
        cases h1
        rfl
      | ok q1' => rw [hr, hr'] at h1; simp [Except.map] at h1
    | ok q1 =>
      cases hr' : fit_wb_arg idl pf pe s a q' with
      | error e => rw [hr, hr'] at h1; simp [Except.map] at h1
      | ok q1' =>
        rw [hr, hr'] at h1
        simp only [Except.map, Except.ok.injEq] at h1
        exact fit_wb_args_viewP idl pf pe s rest q1 q1' h1

theorem fit_wb_sub_viewP (reg : Registry) (idl : List String)
    (pf pe : List Cell) (s : String) (q q' : Params × List Write)
    (h : obsPW q = obsPW q') :
    (fit_wb_sub reg idl pf pe s q).map obsPW
      = (fit_wb_sub reg idl pf pe s q').map obsPW := by
  obtain ⟨ps, ws⟩ := q
  obtain ⟨ps', ws'⟩ := q'
  have hq := h
  simp only [obsPW, Prod.mk.injEq] at hq
  obtain ⟨hview, hws⟩ := hq
  subst hws
  unfold fit_wb_sub
  dsimp only
  rw [← isActive_viewP ps ps' hview s]
  by_cases hact : isActive ps s
  · rw [if_pos hact, if_pos hact]
    cases reg.lookup ((pySplit s '#').headD s) with
    | none => rfl
    | some args_expected =>
      dsimp only
      exact fit_wb_args_viewP idl pf pe s args_expected.tail _ _ h
  · rw [if_neg hact, if_neg hact]
    simp only [Except.map, Except.ok.injEq]
    exact h

theorem fit_wb_list_viewP (reg : Registry) (idl : List String)
    (pf pe : List Cell) :
    ∀ (l : List String) (q q' : Params × List Write), obsPW q = obsPW q' →
      (fit_wb_list reg idl pf pe l q).map obsPW
        = (fit_wb_list reg idl pf pe l q').map obsPW
  | [], q, q', h => by
    simp only [fit_wb_list, Except.map]
    rw [h]
  | s :: rest, q, q', h => by
    simp only [fit_wb_list]
    have h1 := fit_wb_sub_viewP reg idl pf pe s q q' h
    cases hr : fit_wb_sub reg idl pf pe s q with
    | error e =>
      cases hr' : fit_wb_sub reg idl pf pe s q' with
      | error e' =>
        rw [hr, hr'] at h1
        simp only [Except.map] at h1
        cases h1
        rfl
      | ok q1' => rw [hr, hr'] at h1; simp [Except.map] at h1
    | ok q1 =>
      cases hr' : fit_wb_sub reg idl pf pe s q' with
      | error e => rw [hr, hr'] at h1; simp [Except.map] at h1
      | ok q1' =>
        rw [hr, hr'] at h1
        simp only [Except.map, Except.ok.injEq] at h1
        exact fit_wb_list_viewP reg idl pf pe rest q1 q1' h1

theorem fit_writeback_viewP (reg : Registry) (ps ps' : Params)
    (h : viewP ps = viewP ps') (idl : List String) (pf pe : List Cell) :
    (fit_writeback reg ps idl pf pe).map obsPW
      = (fit_writeback reg ps' idl pf pe).map obsPW := by
  unfold fit_writeback
  rw [← viewP_keys ps ps' h]
  exact fit_wb_list_viewP reg idl pf pe (ps.map Prod.fst) (ps, []) (ps', [])
    (by simp only [obsPW, Prod.mk.injEq]; exact ⟨h, trivial⟩)


/-- C10: every use-case-selecting operation selects the first use-case
with `use = 'y'` in row order, and later use-cases never influence the
results.  Part 1: the selector `firstY` (`['use'].index('y')`, shared
by `update_model`, `update_submodels`, `fit`'s write-back and
link-target resolution) returns an index holding `'y'` such that no
earlier use-case has `'y'`.  Parts 2-4: on view-equal parameter tables
(same submodels, arguments and `use` columns, same mutated-column
lengths, same cells at each argument's first `'y'` use-case, all later
use-cases arbitrary) `update_model` produces identical errors, writes,
strings, vectors and fragments and view-equal tables; `update_submodels`
produces literally identical output; and `fit`'s write-back produces
identical errors and store writes and view-equal tables. -/
theorem C10_first_usecase_selection :
    (∀ (l : List Cell) (i : Nat), firstY l = some i →
        l.getD i (Cell.s "") = Cell.s "y" ∧ i < l.length ∧
        ∀ j, j < i → l.getD j (Cell.s "") ≠ Cell.s "y") ∧
    (∀ (fuel : Nat) (reg : Registry) (ps ps' : Params),
        viewP ps = viewP ps' →
        Res.map obsResult (update_model fuel reg ps)
          = Res.map obsResult (update_model fuel reg ps')) ∧
    (∀ (reg : Registry) (ps ps' : Params) (idl : List String)
        (pg pf : List Cell), viewP ps = viewP ps' →
        update_submodels reg ps idl pg pf
          = update_submodels reg ps' idl pg pf) ∧
    (∀ (reg : Registry) (ps ps' : Params) (idl : List String)
        (pf pe : List Cell), viewP ps = viewP ps' →
        (fit_writeback reg ps idl pf pe).map obsPW
          = (fit_writeback reg ps' idl pf pe).map obsPW) :=
  ⟨fun l i h =>
      ⟨firstY_getD l i h, firstY_lt_length l i h, firstY_minimal l i h⟩,
   fun fuel reg ps ps' h => update_model_viewP fuel reg ps ps' h,
   fun reg ps ps' idl pg pf h => update_submodels_viewP reg ps ps' h idl pg pf,
   fun reg ps ps' idl pf pe h => fit_writeback_viewP reg ps ps' h idl pf pe⟩

/-- C10 witness: on the column `['n', 'y', 'y']` the selector picks
index 1 (not 2), and the two concrete tables `tblC10a` / `tblC10b`,
which differ only in the later `use = 'y'` use-case of `center`, give
equal observations through the whole engine. -/
theorem C10_first_usecase_selection_witness :
    (useC10.getD 1 (Cell.s "") = Cell.s "y" ∧ 1 < useC10.length ∧
      ∀ j, j < 1 → useC10.getD j (Cell.s "") ≠ Cell.s "y") ∧
    Res.map obsResult (update_model 0 regC1 tblC10a)
      = Res.map obsResult (update_model 0 regC1 tblC10b) ∧
    update_submodels regC1 tblC10a ["p0"] [Cell.n 1] [Cell.n 1]
      = update_submodels regC1 tblC10b ["p0"] [Cell.n 1] [Cell.n 1] ∧
    (fit_writeback regC1 tblC10a ["p0"] [Cell.n 2] [Cell.n 3]).map obsPW
      = (fit_writeback regC1 tblC10b ["p0"] [Cell.n 2] [Cell.n 3]).map obsPW :=
  ⟨C10_first_usecase_selection.1 useC10 1 (by decide),
   C10_first_usecase_selection.2.1 0 regC1 tblC10a tblC10b (by decide),
   C10_first_usecase_selection.2.2.1 regC1 tblC10a tblC10b
     ["p0"] [Cell.n 1] [Cell.n 1] (by decide),
   C10_first_usecase_selection.2.2.2 regC1 tblC10a tblC10b
     ["p0"] [Cell.n 2] [Cell.n 3] (by decide)⟩

end Backpack
